import Mathlib

/-!
# Verification of the mynginx apply pipeline

A shallow embedding of the parts of the `mynginx` control plane that the
checked claims talk about:

* the server driver (`internal/nginx/manager.go`): `Publish`,
  `RemoveLiveSite`, and the staging/backup/sites directory layout;
* the apply pipeline (`internal/app/app.go`): batch `Apply`, `applyOne`,
  `stageDeleteLiveConf`, `rollbackFromBackup`, `siteNeedsApply`;
* the sqlite state store (`internal/store/sqlite`): `UpsertSite`,
  `UpdateApplyResult`;
* the PHP-FPM pool manager (`internal/fpm/ensure.go`): `makeKey`,
  `SocketPath`, `PoolFilePath`, `EnsurePool`;
* the upstream-key derivation (`internal/nginx/apply.go`): `MakeUpstreamKey`;
* configuration defaulting (`internal/config/config.go`): `applyDefaults`;
* certificate expiry arithmetic (`internal/certs/certbot.go`).

Modelling conventions:

* File contents are byte lists (`Bytes`).  The filesystem is a partial map
  from structured paths to contents.  The atomic writer
  (`util.WriteFileAtomic`) is modelled as a single atomic update of that
  map, which is exactly the guarantee it provides to readers.
* The sites, staging-sites, backup and pool directories are configured as
  distinct directories, so a path is a pair of a directory tag and a file
  name inside it.  A live vhost file is `<sites>/<domain>.conf`, a backup
  is `<backup>/<domain>.conf.bak`, a staged file is
  `<stage>/sites/<domain>.conf`.
* External processes (nginx `-t`, nginx `-s reload`, systemctl reload of
  PHP-FPM) are oracles in an environment record; the model counts the
  invocations.
* Template rendering (`RenderSiteToStaging` together with
  `buildTemplateData`) is a deterministic function of the render-affecting
  site fields; it is a parameter of the environment, as is the SHA-256 hex
  function (`util.Sha256Hex`), of which the claims only use that it is a
  function of the bytes.
* Timestamps are naturals; the store stamps `now` on updates.
-/

namespace MyNginx

/-- File contents as a list of bytes. -/
abbrev Bytes := List Nat

/-- Directory tags for the distinct configured directories the pipeline
touches: live sites dir, backup dir, staging sites dir, PHP-FPM pools dir. -/
inductive FDir
  | sites
  | backup
  | stageSites
  | pools
deriving DecidableEq, Repr

/-- A path is a directory tag plus the file name inside that directory. -/
structure FPath where
  dir : FDir
  file : String
deriving DecidableEq, Repr

/-- Filesystem: partial map from paths to byte contents. -/
def FS : Type := FPath → Option Bytes

/-- The empty filesystem. -/
def FS.empty : FS := fun _ => none

/-- Atomic write (write-to-temp + rename): readers see the old or the new
contents, never a torn file; modelled as a single map update. -/
def FS.write (fs : FS) (p : FPath) (b : Bytes) : FS :=
  fun q => if q = p then some b else fs q

/-- Removing a file. -/
def FS.remove (fs : FS) (p : FPath) : FS :=
  fun q => if q = p then none else fs q

/-- Live vhost file `<sites>/<domain>.conf`. -/
def livePath (domain : String) : FPath := ⟨.sites, domain ++ ".conf"⟩

/-- Backup file `<backup>/<domain>.conf.bak`. -/
def bakPath (domain : String) : FPath := ⟨.backup, domain ++ ".conf.bak"⟩

/-- Staged vhost file `<stage>/sites/<domain>.conf`. -/
def stagePath (domain : String) : FPath := ⟨.stageSites, domain ++ ".conf"⟩

/-- A single filesystem effect, in the order the Go code performs them. -/
inductive FsOp
  | write (p : FPath) (b : Bytes)
  | remove (p : FPath)
deriving DecidableEq, Repr

/-- Apply one filesystem effect. -/
def FsOp.apply (fs : FS) : FsOp → FS
  | .write p b => fs.write p b
  | .remove p => fs.remove p

/-- Apply a sequence of filesystem effects, first op first. -/
def applyOps (fs : FS) (ops : List FsOp) : FS :=
  ops.foldl FsOp.apply fs

/-- Embedding of `(*Manager).Publish` (internal/nginx/manager.go): read the
staged file, skip when the live file already has those bytes, otherwise
back up the live file (when it exists) and then atomically write the new
live file.  The result is the list of writes in program order together
with the `changed` flag. -/
def Publish (fs : FS) (domain : String) : Except String (List FsOp × Bool) :=
  if domain = "" then .error "domain is required"
  else
    match fs (stagePath domain) with
    | none => .error "read staging"
    | some data =>
      match fs (livePath domain) with
      | some live =>
        if live = data then .ok ([], false)
        else .ok ([.write (bakPath domain) live, .write (livePath domain) data], true)
      | none => .ok ([.write (livePath domain) data], true)

/-- Embedding of `(*Manager).RemoveLiveSite`: when the live vhost exists,
write its bytes to the backup file and remove the live file. -/
def RemoveLiveSite (fs : FS) (domain : String) : List FsOp :=
  match fs (livePath domain) with
  | none => []
  | some old => [.write (bakPath domain) old, .remove (livePath domain)]

/-- Embedding of `stageDeleteLiveConf` (internal/app/app.go): returns the
effects plus whether a live file existed (the `ok` result). -/
def stageDeleteLiveConf (fs : FS) (domain : String) : List FsOp × Bool :=
  match fs (livePath domain) with
  | none => ([], false)
  | some old => ([.write (bakPath domain) old, .remove (livePath domain)], true)

/-- Embedding of one iteration of `rollbackFromBackup` (internal/app/app.go):
if the backup exists and is non-empty, atomically write it over the live
file, otherwise remove the live file. -/
def rollbackOne (fs : FS) (d : String) : FS :=
  match fs (bakPath d) with
  | some b => if b = [] then fs.remove (livePath d) else fs.write (livePath d) b
  | none => fs.remove (livePath d)

/-- Embedding of `rollbackFromBackup` over a list of domains. -/
def rollbackFromBackup (fs : FS) (domains : List String) : FS :=
  domains.foldl rollbackOne fs

/-- What the live file holds after a rollback, as a function of the backup
contents: restored backup bytes when present and non-empty, absent
otherwise. -/
def rollbackTarget : Option Bytes → Option Bytes
  | some b => if b = [] then none else some b
  | none => none

/-! ## String helpers (Go `strings` package, ASCII fragment)

Domains are ASCII; `strings.ToLower`/`strings.TrimSpace` are modelled on
the ASCII fragment Go treats identically. -/

/-- Go `unicode.IsSpace` on the ASCII whitespace actually seen in input. -/
def goIsSpace (c : Char) : Bool :=
  c == ' ' || c == '\t' || c == '\n' || c == '\r'

/-- Go `strings.TrimSpace` (ASCII fragment). -/
def goTrimSpace (s : String) : String :=
  ⟨((s.data.dropWhile goIsSpace).reverse.dropWhile goIsSpace).reverse⟩

/-- ASCII lower-casing of one character. -/
def asciiToLower (c : Char) : Char :=
  if 'A' ≤ c && c ≤ 'Z' then Char.ofNat (c.toNat + 32) else c

/-- Go `strings.ToLower` (ASCII fragment). -/
def goToLower (s : String) : String :=
  ⟨s.data.map asciiToLower⟩

/-- The normalization `strings.ToLower(strings.TrimSpace(d))` the app layer
applies to every domain before it reaches the store or the pipeline. -/
def normDomain (s : String) : String :=
  goToLower (goTrimSpace s)

/-! ## Domain keys (internal/fpm/ensure.go, internal/nginx/apply.go) -/

/-- Characters the `nonIdent` regexp `[^a-zA-Z0-9_]+` leaves alone. -/
def isIdentChar (c : Char) : Bool :=
  ('a' ≤ c && c ≤ 'z') || ('A' ≤ c && c ≤ 'Z') || ('0' ≤ c && c ≤ '9') || c == '_'

/-- Replace each maximal run of non-identifier characters by one `_`
(the flag records whether we are inside such a run). -/
def collapseAux : Bool → List Char → List Char
  | _, [] => []
  | inRun, c :: cs =>
    if isIdentChar c then c :: collapseAux false cs
    else if inRun then collapseAux true cs
    else '_' :: collapseAux true cs

/-- Embedding of `nonIdent.ReplaceAllString(s, "_")`: every maximal run of
characters outside `[a-zA-Z0-9_]` becomes a single underscore. -/
def collapseNonIdent (l : List Char) : List Char :=
  collapseAux false l

/-- Go `strings.Trim(s, "_")`: strip leading and trailing underscores. -/
def trimUnderscores (l : List Char) : List Char :=
  ((l.dropWhile (· == '_')).reverse.dropWhile (· == '_')).reverse

/-- Embedding of `makeKey` (internal/fpm/ensure.go): trim whitespace, lower
case, replace `.` and `-` by `_`, collapse other non-identifier runs to
`_`, strip outer underscores, and map an empty result to "site". -/
def makeKey (s : String) : String :=
  let t := goToLower (goTrimSpace s)
  let repl := t.data.map (fun c => if c == '.' || c == '-' then '_' else c)
  let trimmed := trimUnderscores (collapseNonIdent repl)
  if trimmed = [] then "site" else ⟨trimmed⟩

/-- Embedding of `MakeUpstreamKey` (internal/nginx/apply.go); identical to
`makeKey` except that it does not trim whitespace first. -/
def MakeUpstreamKey (domain : String) : String :=
  let t := goToLower domain
  let repl := t.data.map (fun c => if c == '.' || c == '-' then '_' else c)
  let trimmed := trimUnderscores (collapseNonIdent repl)
  if trimmed = [] then "site" else ⟨trimmed⟩

/-- Model of `filepath.Join dir name` for a clean, non-empty directory. -/
def joinPath (dir name : String) : String := dir ++ "/" ++ name

/-- Embedding of `fpm.SocketPath`: `<sock_dir>/ngm-<key>-<version>.sock`. -/
def SocketPath (sockDir domain phpVersion : String) : String :=
  joinPath sockDir ("ngm-" ++ makeKey domain ++ "-" ++ phpVersion ++ ".sock")

/-- Embedding of `fpm.PoolFilePath`: `<pools_dir>/ngm-<key>.conf`. -/
def PoolFilePath (poolsDir domain : String) : String :=
  joinPath poolsDir ("ngm-" ++ makeKey domain ++ ".conf")

/-- The key exactly as the spec sentence behind claim C7 words it:
"lowercased domain with `.` and `-` replaced by `_` and any other
non-identifier character collapsed to `_`; empty result maps to `site`"
(no stripping of leading/trailing underscores). -/
def specUpstreamKey (domain : String) : String :=
  let t := goToLower domain
  let repl := t.data.map (fun c => if c == '.' || c == '-' then '_' else c)
  let collapsed := collapseNonIdent repl
  if collapsed = [] then "site" else ⟨collapsed⟩

/-- The key as the amended claim words it: additionally trim surrounding
whitespace first and strip leading/trailing underscores before the
empty-result check. -/
def specUpstreamKeyAmended (domain : String) : String :=
  let t := goToLower (goTrimSpace domain)
  let repl := t.data.map (fun c => if c == '.' || c == '-' then '_' else c)
  let stripped := trimUnderscores (collapseNonIdent repl)
  if stripped = [] then "site" else ⟨stripped⟩

/-! ## State store (internal/store/sqlite, src/unnamed/part_003) -/

/-- One row of the `sites` table, with the columns the pipeline reads. -/
structure SiteRec where
  id : Nat
  userID : Nat
  domain : String
  mode : String
  webroot : String
  phpVersion : String
  enableHTTP3 : Bool
  enabled : Bool
  createdAt : Nat
  updatedAt : Nat
  lastRenderHash : String
  lastApplyStatus : String
  lastApplyError : String
  lastAppliedAt : Option Nat
deriving DecidableEq, Repr

/-- The `sites` table; `ListSites` returns these rows (ordered by domain,
which none of the checked properties depend on). -/
abbrev DB := List SiteRec

/-- Embedding of `(*Store).UpdateApplyResult`: a SQL UPDATE of the
last-apply columns of every row whose `domain` column equals the given
string, stamping `last_applied_at = now`. -/
def UpdateApplyResult (db : DB) (domain status errMsg renderHash : String) (now : Nat) : DB :=
  db.map fun r =>
    if r.domain = domain then
      { r with lastApplyStatus := status, lastApplyError := errMsg,
               lastRenderHash := renderHash, lastAppliedAt := some now }
    else r

/-- Fresh id for an inserted row (sqlite rowid autoincrement). -/
def freshId (db : DB) : Nat :=
  (db.map (·.id)).foldr max 0 + 1

/-- The row update `UpsertSite` performs on a domain conflict
(`ON CONFLICT(domain) DO UPDATE SET ...`): desired-state columns and
`updated_at` are replaced, everything else is kept. -/
def upsertUpdateRow (now : Nat) (site : SiteRec) (mode : String) (r : SiteRec) : SiteRec :=
  if r.domain = site.domain then
    { r with userID := site.userID, mode := mode, webroot := site.webroot,
             phpVersion := site.phpVersion, enableHTTP3 := site.enableHTTP3,
             enabled := site.enabled, updatedAt := now }
  else r

/-- The row `UpsertSite` inserts when the domain is new. -/
def upsertInsertRow (db : DB) (now : Nat) (site : SiteRec) (mode : String) : SiteRec :=
  { site with id := freshId db, mode := mode, createdAt := now, updatedAt := now,
              lastRenderHash := "", lastApplyStatus := "", lastApplyError := "",
              lastAppliedAt := none }

/-- The mode after defaulting: `if site.Mode == "" { site.Mode = "php" }`. -/
def effMode (site : SiteRec) : String :=
  if site.mode = "" then "php" else site.mode

/-- Embedding of `(*Store).UpsertSite`: validation, then
`INSERT ... ON CONFLICT(domain) DO UPDATE` keyed on the exact `domain`
string of the argument (the store itself performs no normalization). -/
def UpsertSite (db : DB) (now : Nat) (site : SiteRec) : Except String DB :=
  if site.domain = "" then .error "domain is required"
  else if site.userID = 0 then .error "user_id is required"
  else
    let mode := effMode site
    if site.webroot = "" then .error "webroot is required"
    else if mode ≠ "php" ∧ mode ≠ "proxy" ∧ mode ≠ "static" then .error "invalid mode"
    else if db.any (fun r => r.domain = site.domain) then
      .ok (db.map (upsertUpdateRow now site mode))
    else
      .ok (db ++ [upsertInsertRow db now site mode])

/-- The store-relevant slice of `App.SiteAdd` (and likewise `SiteEdit`):
the app layer lower-cases and trims the requested domain before calling
`UpsertSite`. -/
def siteAddUpsert (db : DB) (now : Nat) (userID : Nat)
    (rawDomain mode webroot phpv : String) (http3 : Bool) : Except String DB :=
  UpsertSite db now
    { id := 0, userID := userID, domain := normDomain rawDomain, mode := mode,
      webroot := webroot, phpVersion := phpv, enableHTTP3 := http3,
      enabled := true, createdAt := 0, updatedAt := 0,
      lastRenderHash := "", lastApplyStatus := "", lastApplyError := "",
      lastAppliedAt := none }

/-- Embedding of `siteNeedsApply` (internal/app/app.go). -/
def siteNeedsApply (s : SiteRec) : Bool :=
  if !s.enabled then false
  else if s.lastAppliedAt.isNone then true
  else if s.lastApplyStatus ≠ "ok" then true
  else match s.lastAppliedAt with
    | some t => s.updatedAt > t
    | none => true

/-! ## The apply pipeline (internal/app/app.go) -/

/-- The render-affecting fields handed to `buildTemplateData` +
`RenderSiteToStaging` for a site (the normalized domain plus the desired
state columns; the last-apply columns play no part in rendering). -/
structure RenderInput where
  domain : String
  mode : String
  webroot : String
  phpVersion : String
  enableHTTP3 : Bool
deriving DecidableEq, Repr

/-- Render input of a site at its normalized domain. -/
def SiteRec.renderInput (s : SiteRec) (d : String) : RenderInput :=
  ⟨d, s.mode, s.webroot, s.phpVersion, s.enableHTTP3⟩

/-- Environment of one apply call: the deterministic renderer
(`buildTemplateData` + template execution), the SHA-256 hex function, the
outcomes of the external nginx test / reload invocations, the
`nginx.apply.test_before_reload` configuration flag and the store clock. -/
structure Env where
  render : RenderInput → Except String Bytes
  sha : Bytes → String
  testOK : Bool
  reloadOK : Bool
  testBeforeReload : Bool
  now : Nat

/-- Embedding of `ApplyRequest`. -/
structure ApplyRequest where
  domain : String
  all : Bool
  dryRun : Bool
  limit : Nat
deriving DecidableEq, Repr

/-- Embedding of `ApplyDomainResult`. -/
structure ApplyDomainResult where
  domain : String
  action : String
  changed : Bool
  renderHash : String
  status : String
  error : String
deriving DecidableEq, Repr

/-- State threaded through the batch loop of `Apply`. -/
structure LoopSt where
  fs : FS
  db : DB
  rows : List ApplyDomainResult
  changed : List String
  changedHashes : List (String × String)
  applied : Nat
  updates : List (String × String)

/-- Result of an apply call, with ghost observables: the internal changed
list, the trace of `UpdateApplyResult` calls (domain, status), the number
of nginx reload invocations, and whether `nginx -t` ran. -/
structure ApplyOut where
  rows : List ApplyDomainResult
  resChanged : List String
  reloaded : Bool
  fs : FS
  db : DB
  changedAcc : List String
  updates : List (String × String)
  nReloads : Nat
  testRan : Bool
  err : Option String

/-- One iteration of the batch loop of `Apply` (internal/app/app.go,
lines 120-213), for the site `s` of the snapshot list. -/
def batchStep (env : Env) (req : ApplyRequest) (st : LoopSt) (s : SiteRec) : LoopSt :=
  let d := normDomain s.domain
  if d = "" then st
  else if !s.enabled then
    if req.dryRun then
      { st with rows := st.rows ++ [⟨d, "delete", false, "", "dry-run", ""⟩],
                applied := st.applied + 1 }
    else
      match stageDeleteLiveConf st.fs d with
      | (ops, ok) =>
        let fs' := applyOps st.fs ops
        let db' := UpdateApplyResult st.db d "ok" "" "" env.now
        { st with fs := fs', db := db',
                  rows := st.rows ++ [⟨d, "delete", ok, "", "ok", ""⟩],
                  changed := if ok then st.changed ++ [d] else st.changed,
                  changedHashes := if ok then st.changedHashes ++ [(d, "")] else st.changedHashes,
                  updates := st.updates ++ [(d, "ok")],
                  applied := st.applied + 1 }
  else if !req.all && !siteNeedsApply s then
    { st with rows := st.rows ++ [⟨d, "skip", false, "", "skipped", ""⟩] }
  else if req.dryRun then
    { st with rows := st.rows ++ [⟨d, "apply", false, "", "dry-run", ""⟩],
              applied := st.applied + 1 }
  else
    match env.render (s.renderInput d) with
    | .error e =>
      { st with db := UpdateApplyResult st.db d "fail" e "" env.now,
                rows := st.rows ++ [⟨d, "apply", false, "", "fail", e⟩],
                updates := st.updates ++ [(d, "fail")],
                applied := st.applied + 1 }
    | .ok content =>
      let renderHash := env.sha content
      let fs1 := st.fs.write (stagePath d) content
      match Publish fs1 d with
      | .error e =>
        { st with fs := fs1,
                  db := UpdateApplyResult st.db d "fail" e renderHash env.now,
                  rows := st.rows ++ [⟨d, "apply", false, renderHash, "fail", e⟩],
                  updates := st.updates ++ [(d, "fail")],
                  applied := st.applied + 1 }
      | .ok (ops, changedNow) =>
        let fs2 := applyOps fs1 ops
        { st with fs := fs2,
                  db := UpdateApplyResult st.db d "ok" "" renderHash env.now,
                  rows := st.rows ++ [⟨d, "apply", changedNow, renderHash, "ok", ""⟩],
                  changed := if changedNow then st.changed ++ [d] else st.changed,
                  changedHashes := if changedNow then st.changedHashes ++ [(d, renderHash)] else st.changedHashes,
                  updates := st.updates ++ [(d, "ok")],
                  applied := st.applied + 1 }

/-- The batch loop: iterate the snapshot of `ListSites`, honouring the
`limit` break. -/
def batchLoop (env : Env) (req : ApplyRequest) : List SiteRec → LoopSt → LoopSt
  | [], st => st
  | s :: rest, st =>
    if 0 < req.limit ∧ req.limit ≤ st.applied then st
    else batchLoop env req rest (batchStep env req st s)

/-- Byte-wise string comparison, as Go's `<` on strings (sort key of the
result rows); `true` when `a` is less than or equal to `b`. -/
def strLeB : List Char → List Char → Bool
  | [], _ => true
  | _ :: _, [] => false
  | c :: cs, d :: ds =>
    if c.toNat < d.toNat then true
    else if d.toNat < c.toNat then false
    else strLeB cs ds

/-- Row order of the result slice: `sort.Slice` by domain. -/
def rowLe (a b : ApplyDomainResult) : Prop :=
  strLeB a.domain.data b.domain.data = true

instance : DecidableRel rowLe := fun a b =>
  (instDecidableEqBool (strLeB a.domain.data b.domain.data) true : Decidable (rowLe a b))

/-- Look up a changed domain's render hash (the Go `changedHashes` map). -/
def hashFor (hs : List (String × String)) (d : String) : String :=
  match hs.find? (fun p => p.1 = d) with
  | some p => p.2
  | none => ""

/-- Mark every changed domain failed after a rollback
(the loop at internal/app/app.go lines 226-230 / 238-242). -/
def failAll (db : DB) (ds : List String) (msg : String)
    (hs : List (String × String)) (now : Nat) : DB :=
  ds.foldl (fun acc d => UpdateApplyResult acc d "fail" msg (hashFor hs d) now) db

/-- Embedding of the batch branch of `(*App).Apply`: run the loop over the
site snapshot, sort the result rows by domain, then test + reload once for
the whole batch, rolling back all changed domains on failure. -/
def applyBatch (env : Env) (req : ApplyRequest) (fs0 : FS) (db0 : DB) : ApplyOut :=
  let st := batchLoop env req db0
    { fs := fs0, db := db0, rows := [], changed := [], changedHashes := [],
      applied := 0, updates := [] }
  let rows := st.rows.insertionSort rowLe
  if req.dryRun || st.changed.isEmpty then
    { rows := rows, resChanged := [], reloaded := false, fs := st.fs, db := st.db,
      changedAcc := st.changed, updates := st.updates, nReloads := 0,
      testRan := false, err := none }
  else if env.testBeforeReload && !env.testOK then
    let fs' := rollbackFromBackup st.fs st.changed
    let db' := failAll st.db st.changed "nginx -t failed (rolled back)" st.changedHashes env.now
    { rows := rows, resChanged := [], reloaded := false, fs := fs', db := db',
      changedAcc := st.changed,
      updates := st.updates ++ st.changed.map (fun d => (d, "fail")),
      nReloads := 1, testRan := true, err := some "nginx -t failed (rolled back)" }
  else if !env.reloadOK then
    let fs' := rollbackFromBackup st.fs st.changed
    let db' := failAll st.db st.changed "nginx reload failed (rolled back)" st.changedHashes env.now
    { rows := rows, resChanged := [], reloaded := false, fs := fs', db := db',
      changedAcc := st.changed,
      updates := st.updates ++ st.changed.map (fun d => (d, "fail")),
      nReloads := 2, testRan := env.testBeforeReload, err := some "nginx reload failed (rolled back)" }
  else
    { rows := rows, resChanged := st.changed, reloaded := true, fs := st.fs, db := st.db,
      changedAcc := st.changed, updates := st.updates, nReloads := 1,
      testRan := env.testBeforeReload, err := none }

/-- Result of `applyOne` before `Apply` wraps it. -/
structure OneOut where
  row : ApplyDomainResult
  changed : Bool
  fs : FS
  db : DB
  updates : List (String × String)
  nReloads : Nat
  testRan : Bool
  err : Option String

/-- Embedding of `(*App).applyOne` (internal/app/app.go lines 251-361). -/
def applyOne (env : Env) (dry : Bool) (domain : String) (fs : FS) (db : DB) : OneOut :=
  match db.find? (fun r => r.domain = domain) with
  | none =>
    { row := ⟨domain, "apply", false, "", "fail", "get site"⟩, changed := false,
      fs := fs, db := db, updates := [], nReloads := 0, testRan := false,
      err := some "get site" }
  | some s =>
    if dry then
      if !s.enabled then
        { row := ⟨domain, "delete", false, "", "dry-run", ""⟩, changed := false,
          fs := fs, db := db, updates := [], nReloads := 0, testRan := false, err := none }
      else
        { row := ⟨domain, "apply", false, "", "dry-run", ""⟩, changed := false,
          fs := fs, db := db, updates := [], nReloads := 0, testRan := false, err := none }
    else if !s.enabled then
      match stageDeleteLiveConf fs domain with
      | ([], _) =>
        { row := ⟨domain, "delete", false, "", "ok", ""⟩, changed := false,
          fs := fs, db := db, updates := [], nReloads := 0, testRan := false, err := none }
      | (ops, _) =>
        let fs1 := applyOps fs ops
        if env.testBeforeReload && !env.testOK then
          { row := ⟨domain, "delete", false, "", "fail", "nginx -t"⟩, changed := true,
            fs := rollbackFromBackup fs1 [domain],
            db := UpdateApplyResult db domain "fail" "nginx -t failed (rolled back)" "" env.now,
            updates := [(domain, "fail")], nReloads := 1, testRan := true,
            err := some "nginx -t failed (rolled back)" }
        else if !env.reloadOK then
          { row := ⟨domain, "delete", false, "", "fail", "nginx reload"⟩, changed := true,
            fs := rollbackFromBackup fs1 [domain],
            db := UpdateApplyResult db domain "fail" "nginx reload failed (rolled back)" "" env.now,
            updates := [(domain, "fail")], nReloads := 2, testRan := env.testBeforeReload,
            err := some "nginx reload failed (rolled back)" }
        else
          { row := ⟨domain, "delete", true, "", "ok", ""⟩, changed := true,
            fs := fs1, db := UpdateApplyResult db domain "ok" "" "" env.now,
            updates := [(domain, "ok")], nReloads := 1, testRan := env.testBeforeReload,
            err := none }
    else
      match env.render (s.renderInput domain) with
      | .error e =>
        { row := ⟨domain, "apply", false, "", "fail", e⟩, changed := false,
          fs := fs, db := UpdateApplyResult db domain "fail" e "" env.now,
          updates := [(domain, "fail")], nReloads := 0, testRan := false, err := some e }
      | .ok content =>
        let renderHash := env.sha content
        let fs1 := fs.write (stagePath domain) content
        match Publish fs1 domain with
        | .error e =>
          { row := ⟨domain, "apply", false, renderHash, "fail", e⟩, changed := false,
            fs := fs1, db := UpdateApplyResult db domain "fail" e renderHash env.now,
            updates := [(domain, "fail")], nReloads := 0, testRan := false, err := some e }
        | .ok (ops, changedNow) =>
          let fs2 := applyOps fs1 ops
          if !changedNow then
            { row := ⟨domain, "apply", false, renderHash, "ok", ""⟩, changed := false,
              fs := fs2, db := UpdateApplyResult db domain "ok" "" renderHash env.now,
              updates := [(domain, "ok")], nReloads := 0, testRan := false, err := none }
          else if env.testBeforeReload && !env.testOK then
            { row := ⟨domain, "apply", true, renderHash, "fail", "nginx -t"⟩, changed := true,
              fs := rollbackFromBackup fs2 [domain],
              db := UpdateApplyResult db domain "fail" "nginx -t failed (rolled back)" renderHash env.now,
              updates := [(domain, "fail")], nReloads := 1, testRan := true,
              err := some "nginx -t failed (rolled back)" }
          else if !env.reloadOK then
            { row := ⟨domain, "apply", true, renderHash, "fail", "nginx reload"⟩, changed := true,
              fs := rollbackFromBackup fs2 [domain],
              db := UpdateApplyResult db domain "fail" "nginx reload failed (rolled back)" renderHash env.now,
              updates := [(domain, "fail")], nReloads := 2, testRan := env.testBeforeReload,
              err := some "nginx reload failed (rolled back)" }
          else
            { row := ⟨domain, "apply", true, renderHash, "ok", ""⟩, changed := true,
              fs := fs2, db := UpdateApplyResult db domain "ok" "" renderHash env.now,
              updates := [(domain, "ok")], nReloads := 1, testRan := env.testBeforeReload,
              err := none }

/-- Embedding of `(*App).Apply`: normalize the requested domain; a
non-empty domain selects single-site mode (whose result never sets
`Reloaded`), otherwise run the batch branch. -/
def Apply (env : Env) (req : ApplyRequest) (fs : FS) (db : DB) : ApplyOut :=
  let domain := normDomain req.domain
  if domain = "" then applyBatch env req fs db
  else
    let one := applyOne env req.dryRun domain fs db
    { rows := [one.row],
      resChanged := if one.changed then [domain] else [],
      reloaded := false,
      fs := one.fs, db := one.db,
      changedAcc := if one.changed then [domain] else [],
      updates := one.updates, nReloads := one.nReloads, testRan := one.testRan,
      err := one.err }

/-! ## PHP-FPM pool manager (internal/fpm/ensure.go) -/

/-- The pool file path, as a structured path in the pools directory. -/
def poolPath (poolsDir domain : String) : FPath :=
  ⟨.pools, PoolFilePath poolsDir domain⟩

/-- Result of `EnsurePool`: socket path, changed flag, the filesystem, the
number of `systemctl reload <service>` invocations, and an error. -/
structure EnsurePoolOut where
  socket : String
  changed : Bool
  fs : FS
  fpmReloads : Nat
  err : Option String

/-- Embedding of `fpm.EnsurePool`: validate the inputs, render the pool
file (deterministic template execution, a parameter here), return
unchanged when the existing pool file already holds the rendered bytes,
otherwise write atomically and reload the service; a reload failure is
returned together with `changed=true`, leaving the fresh file in place
(the Go code returns an empty socket string in that case). -/
def EnsurePool (fs : FS) (poolsDir service sockDir domain phpVersion : String)
    (rendered : Except String Bytes) (fpmReloadOK : Bool) : EnsurePoolOut :=
  if domain = "" then
    { socket := "", changed := false, fs := fs, fpmReloads := 0, err := some "domain required" }
  else if poolsDir = "" ∨ service = "" ∨ sockDir = "" ∨ phpVersion = "" then
    { socket := "", changed := false, fs := fs, fpmReloads := 0,
      err := some "poolsDir/service/sockDir/phpVersion required" }
  else
    let socket := SocketPath sockDir domain phpVersion
    match rendered with
    | .error e =>
      { socket := "", changed := false, fs := fs, fpmReloads := 0, err := some e }
    | .ok bytes =>
      let out := poolPath poolsDir domain
      match fs out with
      | some old =>
        if old = bytes then
          { socket := socket, changed := false, fs := fs, fpmReloads := 0, err := none }
        else
          let fs' := fs.write out bytes
          if fpmReloadOK then
            { socket := socket, changed := true, fs := fs', fpmReloads := 1, err := none }
          else
            { socket := "", changed := true, fs := fs', fpmReloads := 1,
              err := some "systemctl reload failed" }
      | none =>
        let fs' := fs.write out bytes
        if fpmReloadOK then
          { socket := socket, changed := true, fs := fs', fpmReloads := 1, err := none }
        else
          { socket := "", changed := true, fs := fs', fpmReloads := 1,
            err := some "systemctl reload failed" }

/-! ## Configuration defaulting (internal/config/config.go) -/

structure APIConfig where
  listen : String
  tokens : List String
  allowIPs : List String
deriving DecidableEq, Repr

structure NginxApplyConfig where
  stagingDir : String
  backupDir : String
  testBeforeReload : Bool
  reloadMode : String
deriving DecidableEq, Repr

structure NginxConfig where
  root : String
  mainConf : String
  sitesDir : String
  bin : String
  apply : NginxApplyConfig
deriving DecidableEq, Repr

structure CertsConfig where
  mode : String
  email : String
  webroot : String
  letsEncryptLive : String
  certbotBin : String
deriving DecidableEq, Repr

structure PHPFPMVersion where
  poolsDir : String
  service : String
  sockDir : String
deriving DecidableEq, Repr

/-- `phpfpm.versions`; a Go nil map and an empty map both model to `[]`. -/
structure PHPFPMConfig where
  defaultVersion : String
  versions : List (String × PHPFPMVersion)
deriving DecidableEq, Repr

structure HostingConfig where
  homeRoot : String
  sitesRootName : String
  webGroup : String
deriving DecidableEq, Repr

structure SecurityConfig where
  auditLog : String
deriving DecidableEq, Repr

structure StorageConfig where
  sqlitePath : String
deriving DecidableEq, Repr

structure Config where
  api : APIConfig
  nginx : NginxConfig
  certs : CertsConfig
  phpfpm : PHPFPMConfig
  hosting : HostingConfig
  security : SecurityConfig
  storage : StorageConfig
deriving DecidableEq, Repr

/-- Embedding of `(*Config).applyDefaults`, applied by `config.Load` to
every configuration after YAML decoding and before validation (which only
reads fields).  The `test_before_reload` step is
`if !c.Nginx.Apply.TestBeforeReload { c.Nginx.Apply.TestBeforeReload = true }`. -/
def applyDefaults (c : Config) : Config :=
  let api := { c.api with listen := if c.api.listen = "" then "127.0.0.1:9601" else c.api.listen }
  let nginxApply :=
    { stagingDir := if c.nginx.apply.stagingDir = "" then "conf/.staging" else c.nginx.apply.stagingDir,
      backupDir := if c.nginx.apply.backupDir = "" then "conf/.backup" else c.nginx.apply.backupDir,
      testBeforeReload := if !c.nginx.apply.testBeforeReload then true else c.nginx.apply.testBeforeReload,
      reloadMode := if c.nginx.apply.reloadMode = "" then "signal" else c.nginx.apply.reloadMode }
  let nginx :=
    { root := c.nginx.root,
      mainConf := if c.nginx.mainConf = "" then "conf/nginx.conf" else c.nginx.mainConf,
      sitesDir := if c.nginx.sitesDir = "" then "conf/sites" else c.nginx.sitesDir,
      bin := if c.nginx.bin = "" then "sbin/nginx" else c.nginx.bin,
      apply := nginxApply }
  let certs :=
    { c.certs with
      mode := if c.certs.mode = "" then "certbot" else c.certs.mode,
      certbotBin := if c.certs.certbotBin = "" then "certbot" else c.certs.certbotBin }
  let phpfpm :=
    { defaultVersion := if c.phpfpm.defaultVersion = "" then "8.4" else c.phpfpm.defaultVersion,
      versions := c.phpfpm.versions }
  let hosting :=
    { homeRoot := if c.hosting.homeRoot = "" then "/home" else c.hosting.homeRoot,
      sitesRootName := if c.hosting.sitesRootName = "" then "sites" else c.hosting.sitesRootName,
      webGroup := if c.hosting.webGroup = "" then "www-data" else c.hosting.webGroup }
  let storage := { sqlitePath := if c.storage.sqlitePath = "" then "/var/lib/ngm/ngm.db" else c.storage.sqlitePath }
  let security := { auditLog := if c.security.auditLog = "" then "/var/log/ngm/audit.log" else c.security.auditLog }
  { api := api, nginx := nginx, certs := certs, phpfpm := phpfpm,
    hosting := hosting, security := security, storage := storage }

/-! ## Certificate expiry (internal/certs/certbot.go)

`GetCertInfo` computes `DaysLeft = int(time.Until(cert.NotAfter).Hours() / 24)`.
Times are nanosecond counts (Go `time.Duration`); the Go conversion
`int(float64)` truncates toward zero, so the composite is truncating
division of the nanosecond difference by one day (float rounding is exact
at every duration used in the claims and immaterial to the rounding
direction question). -/

/-- Nanoseconds per 24h day. -/
def nsPerDay : Int := 86400000000000

/-- Embedding of the `DaysLeft` computation of `getCertInfoFromPath` /
`GetCertInfo`: truncation toward zero of `(NotAfter - now) / 24h`. -/
def certDaysLeft (nowNs notAfterNs : Int) : Int :=
  Int.tdiv (notAfterNs - nowNs) nsPerDay

/-- The `DaysLeft` the spec sentence behind claim C8 asks for:
`floor((NotAfter - now) / 24h)`. -/
def specDaysLeftFloor (nowNs notAfterNs : Int) : Int :=
  Int.fdiv (notAfterNs - nowNs) nsPerDay

/-! ## Derived observables used in statements -/

/-- Number of `UpdateApplyResult` calls recorded for a domain. -/
def countUpdates (u : List (String × String)) (d : String) : Nat :=
  (u.filter (fun p => p.1 = d)).length

/-- A result row that corresponds to an actual reconciliation attempt
(dry-run and skip rows are not attempts). -/
def isActioned (r : ApplyDomainResult) : Bool :=
  r.status == "ok" || r.status == "fail"

/-- Number of actioned result rows for a domain. -/
def countActioned (rows : List ApplyDomainResult) (d : String) : Nat :=
  (rows.filter (fun r => isActioned r && r.domain == d)).length

/-- Book-keeping invariant of the batch loop tying the
`UpdateApplyResult` trace to the result rows: the domains seen so far are
`doms`, rows carry pairwise distinct domains from `doms`, each domain has
as many update calls as actioned rows, and each changed domain has an
actioned row. -/
structure UpdInv (doms : List String) (st : LoopSt) : Prop where
  rows_doms : ∀ row ∈ st.rows, row.domain ∈ doms
  rows_nodup : (st.rows.map (·.domain)).Nodup
  counts : ∀ d, countUpdates st.updates d = countActioned st.rows d
  changed_rows : ∀ d ∈ st.changed, ∃ row ∈ st.rows, row.domain = d ∧ isActioned row = true
  changed_nodup : st.changed.Nodup
  changed_doms : ∀ d ∈ st.changed, d ∈ doms

/-- Two site rows that agree on everything except the last-apply columns
(`UpdateApplyResult` only ever touches those). -/
def sameCore (s r : SiteRec) : Prop :=
  r.id = s.id ∧ r.userID = s.userID ∧ r.domain = s.domain ∧ r.mode = s.mode ∧
  r.webroot = s.webroot ∧ r.phpVersion = s.phpVersion ∧ r.enableHTTP3 = s.enableHTTP3 ∧
  r.enabled = s.enabled ∧ r.createdAt = s.createdAt ∧ r.updatedAt = s.updatedAt

/-- A site record on which re-running the batch step is a no-op with a
good result row: empty domain (skipped), up-to-date (skip row), enabled
with the live file already holding exactly what renders, or disabled with
no live file. -/
def PassTwoSafe (env : Env) (req : ApplyRequest) (fs : FS) (s : SiteRec) : Prop :=
  normDomain s.domain = "" ∨
  (s.enabled = true ∧ req.all = false ∧ siteNeedsApply s = false) ∨
  (s.enabled = true ∧ ∃ b, env.render (s.renderInput (normDomain s.domain)) = .ok b ∧
    fs (livePath (normDomain s.domain)) = some b) ∨
  (s.enabled = false ∧ fs (livePath (normDomain s.domain)) = none)

/-- Post-state of the first pass for one already-processed site (stated
for stores whose domains are normalized, so `normDomain s.domain =
s.domain`): the site was either skipped with its row untouched, or its
live file now holds exactly its rendered bytes / is gone. -/
def SiteDone (env : Env) (req : ApplyRequest) (st : LoopSt) (s : SiteRec) : Prop :=
  s.domain = "" ∨
  (s.enabled = true ∧ req.all = false ∧ siteNeedsApply s = false ∧
    (∀ r ∈ st.db, r.domain = s.domain → r = s)) ∨
  (s.enabled = true ∧ ∃ b, env.render (s.renderInput s.domain) = .ok b ∧
    st.fs (livePath s.domain) = some b) ∨
  (s.enabled = false ∧ st.fs (livePath s.domain) = none)

/-- Invariant of the first batch pass: the working store differs from the
snapshot only in last-apply columns, processed sites satisfy `SiteDone`,
and rows of yet-unprocessed sites are still untouched. -/
def PassOneInv (env : Env) (req : ApplyRequest) (db0 : DB)
    (pre suf : List SiteRec) (st : LoopSt) : Prop :=
  List.Forall₂ sameCore db0 st.db ∧
  (∀ s ∈ pre, SiteDone env req st s) ∧
  (∀ s ∈ suf, ∀ r ∈ st.db, r.domain = s.domain → r = s)

/-- Invariant of the second batch pass: only staging files were written,
nothing accumulated into `changed`, and every row is an unchanged `ok` or
a `skipped`. -/
def PassTwoInv (fs1 : FS) (st : LoopSt) : Prop :=
  (∀ p : FPath, p.dir ≠ FDir.stageSites → st.fs p = fs1 p) ∧
  st.changed = [] ∧
  (∀ row ∈ st.rows, row.changed = false ∧ (row.status = "ok" ∨ row.status = "skipped"))

/-! ## Concrete environments and stores for witnesses and counterexamples -/

/-- A deterministic renderer: one byte derived from the domain length. -/
def renderW : RenderInput → Except String Bytes :=
  fun ri => .ok [ri.domain.length]

/-- A stand-in hash function (a function of the bytes, as `Sha256Hex` is). -/
def shaW : Bytes → String :=
  fun b => ⟨b.map fun _ => 'x'⟩

/-- Environment where nginx test and reload both succeed. -/
def envW : Env :=
  { render := renderW, sha := shaW, testOK := true, reloadOK := true,
    testBeforeReload := true, now := 5 }

/-- Environment where `nginx -t` fails. -/
def envFailTest : Env :=
  { envW with testOK := false }

/-- An enabled, never-applied site row for a domain. -/
def sitePending (d : String) : SiteRec :=
  { id := 1, userID := 1, domain := d, mode := "php",
    webroot := "/home/u/sites/" ++ d ++ "/public", phpVersion := "8.3",
    enableHTTP3 := false, enabled := true, createdAt := 0, updatedAt := 0,
    lastRenderHash := "", lastApplyStatus := "", lastApplyError := "",
    lastAppliedAt := none }

/-- Batch request: no domain, `all=false`, real run, no limit. -/
def reqBatch : ApplyRequest := { domain := "", all := false, dryRun := false, limit := 0 }

/-- Batch request with `limit = 1`. -/
def reqLimit1 : ApplyRequest := { reqBatch with limit := 1 }

/-- Single-site request. -/
def reqOne : ApplyRequest := { reqBatch with domain := "site1.example" }

/-- Staged file `[1]` and live file `[2]` for domain `a` (claim C1 witness). -/
def fsPubW : FS :=
  fun p => if p = stagePath "a" then some [1]
           else if p = livePath "a" then some [2] else none

/-- A live vhost for `a.com` whose bytes differ from what renders. -/
def fsLiveW : FS :=
  fun p => if p = livePath "a.com" then some [9, 9] else none

/-- Failed batch over one pending site with a pre-existing live file. -/
def outRollbackW : ApplyOut :=
  applyBatch envFailTest reqBatch fsLiveW [sitePending "a.com"]

/-- Failed batch over one pending site starting from an empty filesystem. -/
def outFailW : ApplyOut :=
  applyBatch envFailTest reqBatch FS.empty [sitePending "a.com"]

/-- First apply of the claim C3 counterexample: two pending sites,
`limit = 1`, everything succeeding. -/
def outLimitFirst : ApplyOut :=
  applyBatch envW reqLimit1 FS.empty [sitePending "a.com", sitePending "b.com"]

/-- Second, immediately following apply on the resulting state. -/
def outLimitSecond : ApplyOut :=
  applyBatch envW reqLimit1 outLimitFirst.fs outLimitFirst.db

/-- Store after `UpsertSite` with a mixed-case domain on an empty store. -/
def dbC6a : DB :=
  match UpsertSite [] 1 (sitePending "Example.COM") with
  | .ok d => d
  | .error _ => []

/-- Store after a second `UpsertSite` with the lower-case variant. -/
def dbC6b : DB :=
  match UpsertSite dbC6a 2 (sitePending "example.com") with
  | .ok d => d
  | .error _ => []

/-- Store after an app-layer `SiteAdd` with a mixed-case, padded domain. -/
def dbC6w1 : DB :=
  match siteAddUpsert [] 1 7 " Example.COM " "php" "/w" "8.3" false with
  | .ok d => d
  | .error _ => []

/-- Store after a second app-layer `SiteAdd` with the lower-case variant. -/
def dbC6w2 : DB :=
  match siteAddUpsert dbC6w1 2 8 "example.com" "php" "/w2" "8.3" true with
  | .ok d => d
  | .error _ => []

/-- A configuration that explicitly sets `test_before_reload: false`. -/
def cfgW : Config :=
  { api := { listen := "", tokens := ["t"], allowIPs := [] },
    nginx := { root := "/opt/nginx", mainConf := "", sitesDir := "", bin := "",
               apply := { stagingDir := "", backupDir := "",
                          testBeforeReload := false, reloadMode := "" } },
    certs := { mode := "", email := "", webroot := "/opt/nginx/html",
               letsEncryptLive := "/etc/letsencrypt/live", certbotBin := "" },
    phpfpm := { defaultVersion := "", versions := [] },
    hosting := { homeRoot := "", sitesRootName := "", webGroup := "" },
    security := { auditLog := "" },
    storage := { sqlitePath := "" } }

/-! ## Claim C1: Publish semantics -/

/-- Claim C1.  `Publish(domain)` reads the staged file
`<stage>/sites/<domain>.conf`; when a live file exists with equal bytes it
returns `changed=false` performing no write at all (no backup, live file
untouched); otherwise, when a live file exists, its current bytes are
written to `<backup>/<domain>.conf.bak` first and only then are the staged
bytes atomically written over the live path, returning `changed=true`
(and when no live file exists, only the live write happens and the backup
is untouched). -/
theorem publish_backup_before_change (fs : FS) (d : String) (b : Bytes)
    (hd : d ≠ "") (hs : fs (stagePath d) = some b) :
    (fs (livePath d) = some b → Publish fs d = .ok ([], false)) ∧
    (∀ l, fs (livePath d) = some l → l ≠ b →
      Publish fs d = .ok ([.write (bakPath d) l, .write (livePath d) b], true) ∧
      applyOps fs [.write (bakPath d) l, .write (livePath d) b] (bakPath d) = some l ∧
      applyOps fs [.write (bakPath d) l, .write (livePath d) b] (livePath d) = some b) ∧
    (fs (livePath d) = none →
      Publish fs d = .ok ([.write (livePath d) b], true) ∧
      applyOps fs [.write (livePath d) b] (bakPath d) = fs (bakPath d) ∧
      applyOps fs [.write (livePath d) b] (livePath d) = some b) := by
  refine ⟨?_, ?_, ?_⟩
  · intro hl
    simp [Publish, hd, hs, hl]
  · intro l hl hne
    refine ⟨by simp [Publish, hd, hs, hl, hne], ?_, ?_⟩ <;>
      simp [applyOps, FsOp.apply, FS.write, bakPath, livePath]
  · intro hl
    refine ⟨by simp [Publish, hd, hs, hl], ?_, ?_⟩ <;>
      simp [applyOps, FsOp.apply, FS.write, bakPath, livePath]

/-- Witness for claim C1: concrete staged bytes `[1]` over live bytes `[2]`. -/
theorem publish_backup_before_change_witness :
    Publish fsPubW "a" = .ok ([.write (bakPath "a") [2], .write (livePath "a") [1]], true) ∧
    applyOps fsPubW [.write (bakPath "a") [2], .write (livePath "a") [1]] (bakPath "a") = some [2] :=
  let h := (publish_backup_before_change fsPubW "a" [1] (by decide) rfl).2.1 [2] rfl (by decide)
  ⟨h.1, h.2.1⟩

/-! ## Claim C5: EnsurePool semantics -/

/-- Claim C5.  `EnsurePool` renders the pool file; when the existing pool
file bytes equal the rendered bytes it returns `changed=false` without
writing and without reloading PHP-FPM; otherwise it writes the pool file
atomically and reloads the service, and when that reload fails it returns
`changed=true` together with the error while the freshly written pool file
stays in place. -/
theorem ensurePool_change_detection (fs : FS)
    (poolsDir service sockDir domain phpVersion : String) (b : Bytes) (rOK : Bool)
    (hdom : domain ≠ "") (hp : poolsDir ≠ "") (hs : service ≠ "")
    (hk : sockDir ≠ "") (hv : phpVersion ≠ "") :
    (fs (poolPath poolsDir domain) = some b →
      EnsurePool fs poolsDir service sockDir domain phpVersion (.ok b) rOK =
        { socket := SocketPath sockDir domain phpVersion, changed := false,
          fs := fs, fpmReloads := 0, err := none }) ∧
    (fs (poolPath poolsDir domain) ≠ some b →
      let out := EnsurePool fs poolsDir service sockDir domain phpVersion (.ok b) rOK
      out.changed = true ∧ out.fpmReloads = 1 ∧
      out.fs (poolPath poolsDir domain) = some b ∧
      (rOK = true → out.err = none) ∧
      (rOK = false → out.err.isSome = true)) := by
  constructor
  · intro heq
    simp [EnsurePool, hdom, hp, hs, hk, hv, heq]
  · intro hne
    cases hfs : fs (poolPath poolsDir domain) with
    | none =>
      cases rOK <;>
        simp [EnsurePool, hdom, hp, hs, hk, hv, hfs, FS.write]
    | some old =>
      have hob : old ≠ b := by
        intro h
        exact hne (by simp [hfs, h])
      cases rOK <;>
        simp [EnsurePool, hdom, hp, hs, hk, hv, hfs, hob, FS.write]

/-- Witness for claim C5: an absent pool file is written and the service
reloaded; with equal bytes nothing happens. -/
theorem ensurePool_change_detection_witness :
    (EnsurePool (fun _ => some [7]) "/pools" "php8.3-fpm" "/run/php" "a.com" "8.3" (.ok [7]) true =
      { socket := SocketPath "/run/php" "a.com" "8.3", changed := false,
        fs := fun _ => some [7], fpmReloads := 0, err := none }) ∧
    (EnsurePool FS.empty "/pools" "php8.3-fpm" "/run/php" "a.com" "8.3" (.ok [7]) false).changed = true :=
  ⟨(ensurePool_change_detection (fun _ => some [7]) "/pools" "php8.3-fpm" "/run/php" "a.com" "8.3"
      [7] true (by decide) (by decide) (by decide) (by decide) (by decide)).1 rfl,
   ((ensurePool_change_detection FS.empty "/pools" "php8.3-fpm" "/run/php" "a.com" "8.3"
      [7] false (by decide) (by decide) (by decide) (by decide) (by decide)).2 (by decide)).1⟩

/-! ## Claim C7: socket and pool file paths -/

/-- Counterexample to claim C7 as stated: for the domain `a-`, the code
strips the trailing underscore from the key (`strings.Trim(s, "_")` in
`makeKey`), so the socket path is `<sock_dir>/ngm-a-8.3.sock` and not the
`<sock_dir>/ngm-a_-8.3.sock` that the claim's key derivation
(`specUpstreamKey`) produces. -/
theorem socketPath_key_counterexample :
    SocketPath "/run/php" "a-" "8.3" ≠
      joinPath "/run/php" ("ngm-" ++ specUpstreamKey "a-" ++ "-" ++ "8.3" ++ ".sock") := by
  decide

/-- Claim C7 (amended).  The socket path is
`<sock_dir>/ngm-<key>-<version>.sock` and the pool file path is
`<pools_dir>/ngm-<key>.conf`, where `<key>` is the whitespace-trimmed,
lowercased domain with `.` and `-` replaced by `_`, any other
non-identifier run collapsed to `_`, and then leading and trailing
underscores stripped; an empty result maps to `"site"`
(`specUpstreamKeyAmended`). -/
theorem socket_and_pool_paths (sockDir poolsDir domain phpVersion : String) :
    SocketPath sockDir domain phpVersion =
      joinPath sockDir ("ngm-" ++ specUpstreamKeyAmended domain ++ "-" ++ phpVersion ++ ".sock") ∧
    PoolFilePath poolsDir domain =
      joinPath poolsDir ("ngm-" ++ specUpstreamKeyAmended domain ++ ".conf") ∧
    makeKey domain = specUpstreamKeyAmended domain :=
  ⟨rfl, rfl, rfl⟩

/-! ## Claim C8: certificate days left -/

/-- Counterexample to claim C8 as stated: for a certificate that expired
36 hours ago, the code computes `int(-36h.Hours()/24) = -1` (truncation
toward zero) while `floor((NotAfter - now)/24h) = -2`. -/
theorem daysLeft_floor_counterexample :
    certDaysLeft 129600000000000 0 ≠ specDaysLeftFloor 129600000000000 0 := by
  decide

/-- Claim C8 (amended).  `DaysLeft` equals `floor((NotAfter - now)/24h)`
while the certificate is not yet expired; for an expired certificate the
Go conversion truncates toward zero, so `DaysLeft` is the negated floor of
the elapsed time past expiry. -/
theorem daysLeft_truncates (nowNs notAfterNs : Int) :
    (nowNs ≤ notAfterNs →
      certDaysLeft nowNs notAfterNs = specDaysLeftFloor nowNs notAfterNs) ∧
    (notAfterNs ≤ nowNs →
      certDaysLeft nowNs notAfterNs = - Int.fdiv (nowNs - notAfterNs) nsPerDay) := by
  have hday : (0 : Int) ≤ nsPerDay := by decide
  constructor
  · intro h
    have hd : (0 : Int) ≤ notAfterNs - nowNs := by omega
    rw [certDaysLeft, specDaysLeftFloor, Int.tdiv_eq_ediv hd hday,
      Int.fdiv_eq_ediv _ hday]
  · intro h
    have hd : (0 : Int) ≤ nowNs - notAfterNs := by omega
    have hrw : notAfterNs - nowNs = -(nowNs - notAfterNs) := by omega
    rw [certDaysLeft, hrw, Int.neg_tdiv, Int.tdiv_eq_ediv hd hday,
      Int.fdiv_eq_ediv _ hday]

/-- Witness for claim C8 (amended): 36 hours before expiry, one day left
is reported as 1; 36 hours past expiry the code reports -1. -/
theorem daysLeft_truncates_witness :
    certDaysLeft 0 129600000000000 = specDaysLeftFloor 0 129600000000000 ∧
    certDaysLeft 129600000000000 0 = - Int.fdiv (129600000000000 - 0) nsPerDay :=
  ⟨(daysLeft_truncates 0 129600000000000).1 (by decide),
   (daysLeft_truncates 129600000000000 0).2 (by decide)⟩

/-! ## Claim C9: test_before_reload is forced on -/

/-- Claim C9.  `applyDefaults` (run by `config.Load` on every accepted
configuration) forces `Nginx.Apply.TestBeforeReload` to `true` — writing
`test_before_reload: false` is overridden — and consequently every
non-dry-run apply whose changed set is non-empty runs `nginx -t` before
reloading. -/
theorem testBeforeReload_forced :
    (∀ c : Config, (applyDefaults c).nginx.apply.testBeforeReload = true) ∧
    (∀ (env : Env) (req : ApplyRequest) (fs0 : FS) (db0 : DB),
      env.testBeforeReload = true → req.dryRun = false →
      (applyBatch env req fs0 db0).changedAcc ≠ [] →
      (applyBatch env req fs0 db0).testRan = true) := by
  constructor
  · intro c
    simp only [applyDefaults]
    cases c.nginx.apply.testBeforeReload <;> rfl
  · intro env req fs0 db0 htbr hdry hne
    simp only [applyBatch, hdry, Bool.false_or] at hne ⊢
    by_cases hc : (batchLoop env req db0
        { fs := fs0, db := db0, rows := [], changed := [], changedHashes := [],
          applied := 0, updates := [] }).changed.isEmpty
    · rw [if_pos hc] at hne
      simp only at hne
      exact absurd (List.isEmpty_iff.mp hc) hne
    · rw [if_neg hc] at hne ⊢
      split
      · rfl
      · split <;> simp [htbr]

/-- Witness for claim C9: an explicitly disabled `test_before_reload` is
forced back on, and a concrete one-site batch apply runs the test. -/
theorem testBeforeReload_forced_witness :
    (applyDefaults cfgW).nginx.apply.testBeforeReload = true ∧
    (applyBatch envW reqBatch FS.empty [sitePending "a.com"]).testRan = true :=
  ⟨testBeforeReload_forced.1 cfgW,
   testBeforeReload_forced.2 envW reqBatch FS.empty [sitePending "a.com"] rfl rfl (by decide)⟩

/-! ## Claim C10: single-site mode never reports Reloaded -/

/-- Claim C10.  For every `ApplyRequest` with a non-empty (normalized)
domain, the result of `Apply` has `Reloaded = false` — the single-site
branch never sets the flag, even when the apply changed the live file and
nginx was reloaded. -/
theorem single_site_never_reloaded (env : Env) (req : ApplyRequest) (fs : FS) (db : DB)
    (h : normDomain req.domain ≠ "") :
    (Apply env req fs db).reloaded = false := by
  simp only [Apply]
  rw [if_neg h]

/-- Witness for claim C10: a single-site apply that did reload nginx
(`nReloads = 1`) still reports `Reloaded = false`. -/
theorem single_site_never_reloaded_witness :
    (Apply envW reqOne FS.empty [sitePending "site1.example"]).reloaded = false ∧
    (Apply envW reqOne FS.empty [sitePending "site1.example"]).nReloads = 1 :=
  ⟨single_site_never_reloaded envW reqOne FS.empty [sitePending "site1.example"] (by decide),
   by decide⟩

/-! ## Claim C6: domain normalization and row identity -/

theorem UpsertSite_ok_elim {db : DB} {now : Nat} {s : SiteRec} {db' : DB}
    (h : UpsertSite db now s = .ok db') :
    ((∃ r ∈ db, r.domain = s.domain) ∧ db' = db.map (upsertUpdateRow now s (effMode s))) ∨
    ((¬ ∃ r ∈ db, r.domain = s.domain) ∧ db' = db ++ [upsertInsertRow db now s (effMode s)]) := by
  simp only [UpsertSite] at h
  split at h
  · simp at h
  split at h
  · simp at h
  split at h
  · simp at h
  split at h
  · simp at h
  split at h
  · left
    rename_i hany
    refine ⟨by simpa using hany, ?_⟩
    exact (Except.ok.inj h).symm
  · right
    rename_i hany
    refine ⟨by simpa using hany, ?_⟩
    exact (Except.ok.inj h).symm

theorem upsertSite_domain_mem {db : DB} {now : Nat} {s : SiteRec} {db' : DB}
    (h : UpsertSite db now s = .ok db') :
    s.domain ∈ db'.map (·.domain) := by
  rcases UpsertSite_ok_elim h with ⟨⟨r, hr, hrd⟩, rfl⟩ | ⟨_, rfl⟩
  · refine List.mem_map.mpr ⟨upsertUpdateRow now s _ r, List.mem_map_of_mem _ hr, ?_⟩
    simp [upsertUpdateRow, hrd]
  · simp [upsertInsertRow]

/-- Counterexample to claim C6 as stated: `Store.UpsertSite` stores the
argument's domain verbatim and conflicts only on the exact string, so two
upserts whose domains differ only in letter case create two distinct rows
(neither lower-cased). -/
theorem upsert_case_counterexample :
    dbC6b.map (fun r => r.domain) = ["Example.COM", "example.com"] ∧ dbC6b.length = 2 := by
  decide

/-- Claim C6 (amended).  `Store.UpsertSite` keys rows on the exact domain
string: an upsert whose domain already occurs updates that row in place
(same row count, the row takes the new payload and `updated_at`), leaving
other rows untouched.  The trimming and lower-casing lives in the app
layer: `SiteAdd`/`SiteEdit` pass `normDomain` of the raw input to
`UpsertSite`, so two app-layer calls whose raw domains differ only in
letter case or surrounding whitespace address the same row. -/
theorem upsert_same_row :
    (∀ (db : DB) (now : Nat) (s : SiteRec) (db' : DB),
      UpsertSite db now s = .ok db' →
      s.domain ∈ db.map (·.domain) →
      db'.length = db.length ∧
      (∀ r ∈ db', r.domain = s.domain →
        r.userID = s.userID ∧ r.webroot = s.webroot ∧ r.phpVersion = s.phpVersion ∧
        r.enableHTTP3 = s.enableHTTP3 ∧ r.enabled = s.enabled ∧ r.updatedAt = now) ∧
      (∀ r ∈ db', r.domain ≠ s.domain → r ∈ db)) ∧
    (∀ (db : DB) (n1 n2 u1 u2 : Nat) (raw1 raw2 m1 m2 w1 w2 p1 p2 : String)
       (h3a h3b : Bool) (db1 db2 : DB),
      normDomain raw1 = normDomain raw2 →
      siteAddUpsert db n1 u1 raw1 m1 w1 p1 h3a = .ok db1 →
      siteAddUpsert db1 n2 u2 raw2 m2 w2 p2 h3b = .ok db2 →
      db2.length = db1.length ∧
      (∀ r ∈ db2, r.domain = normDomain raw2 →
        r.userID = u2 ∧ r.webroot = w2 ∧ r.enableHTTP3 = h3b ∧ r.updatedAt = n2)) := by
  have main : ∀ (db : DB) (now : Nat) (s : SiteRec) (db' : DB),
      UpsertSite db now s = .ok db' →
      s.domain ∈ db.map (·.domain) →
      db'.length = db.length ∧
      (∀ r ∈ db', r.domain = s.domain →
        r.userID = s.userID ∧ r.webroot = s.webroot ∧ r.phpVersion = s.phpVersion ∧
        r.enableHTTP3 = s.enableHTTP3 ∧ r.enabled = s.enabled ∧ r.updatedAt = now) ∧
      (∀ r ∈ db', r.domain ≠ s.domain → r ∈ db) := by
    intro db now s db' h hmem
    have hex : ∃ r ∈ db, r.domain = s.domain := by
      obtain ⟨r, hr, hrd⟩ := List.mem_map.mp hmem
      exact ⟨r, hr, hrd⟩
    rcases UpsertSite_ok_elim h with ⟨_, rfl⟩ | ⟨hno, _⟩
    · refine ⟨by simp, ?_, ?_⟩
      · intro r hr hrd
        obtain ⟨r0, hr0, hfr⟩ := List.mem_map.mp hr
        by_cases h0 : r0.domain = s.domain
        · rw [upsertUpdateRow, if_pos h0] at hfr
          subst hfr
          simp
        · rw [upsertUpdateRow, if_neg h0] at hfr
          subst hfr
          exact absurd hrd h0
      · intro r hr hrd
        obtain ⟨r0, hr0, hfr⟩ := List.mem_map.mp hr
        by_cases h0 : r0.domain = s.domain
        · rw [upsertUpdateRow, if_pos h0] at hfr
          subst hfr
          simp at hrd
          exact absurd h0 hrd
        · rw [upsertUpdateRow, if_neg h0] at hfr
          subst hfr
          exact hr0
    · exact absurd hex hno
  refine ⟨main, ?_⟩
  intro db n1 n2 u1 u2 raw1 raw2 m1 m2 w1 w2 p1 p2 h3a h3b db1 db2 hnorm h1 h2
  have hmem1 : normDomain raw2 ∈ db1.map (·.domain) := by
    have := upsertSite_domain_mem h1
    simpa [hnorm] using this
  have := main db1 n2 _ db2 h2 hmem1
  exact ⟨this.1, fun r hr hrd => by
    have hfields := this.2.1 r hr hrd
    exact ⟨hfields.1, hfields.2.1, hfields.2.2.2.1, hfields.2.2.2.2.2⟩⟩

/-- Witness for claim C6 (amended): app-layer adds of " Example.COM " and
then "example.com" end with the same single row, carrying the second
call's payload. -/
theorem upsert_same_row_witness :
    dbC6w2.length = dbC6w1.length ∧
    (∀ r ∈ dbC6w2, r.domain = normDomain "example.com" →
      r.userID = 8 ∧ r.webroot = "/w2" ∧ r.enableHTTP3 = true ∧ r.updatedAt = 2) :=
  upsert_same_row.2 [] 1 2 7 8 " Example.COM " "example.com" "php" "php" "/w" "/w2"
    "8.3" "8.3" false true dbC6w1 dbC6w2 (by decide) rfl rfl

/-! ## Claim C2: rollback completeness on batch failure -/

theorem livePath_inj {d e : String} (h : livePath d = livePath e) : d = e := by
  have hf : d ++ ".conf" = e ++ ".conf" := congrArg FPath.file h
  have := congrArg String.data hf
  simp only [String.data_append] at this
  exact String.ext (List.append_cancel_right this)

theorem rollbackOne_preserves {fs : FS} {e : String} {p : FPath}
    (hp : p.dir ≠ FDir.sites) : rollbackOne fs e p = fs p := by
  have hne : p ≠ livePath e := by
    intro h
    exact hp (by rw [h]; rfl)
  rcases hb : fs (bakPath e) with _ | b
  · simp [rollbackOne, hb, FS.remove, hne]
  · by_cases hb0 : b = [] <;> simp [rollbackOne, hb, hb0, FS.remove, FS.write, hne]

theorem rollback_preserves {ds : List String} {fs : FS} {p : FPath}
    (hp : p.dir ≠ FDir.sites) : rollbackFromBackup fs ds p = fs p := by
  induction ds generalizing fs with
  | nil => rfl
  | cons e rest ih =>
    show rollbackFromBackup (rollbackOne fs e) rest p = fs p
    rw [ih, rollbackOne_preserves hp]

theorem rollbackOne_other_live {fs : FS} {e d : String} (hne : d ≠ e) :
    rollbackOne fs e (livePath d) = fs (livePath d) := by
  have hpp : livePath d ≠ livePath e := fun h => hne (livePath_inj h)
  rcases hb : fs (bakPath e) with _ | b
  · simp [rollbackOne, hb, FS.remove, hpp]
  · by_cases hb0 : b = [] <;> simp [rollbackOne, hb, hb0, FS.remove, FS.write, hpp]

theorem rollback_not_mem {ds : List String} {fs : FS} {d : String} (hd : d ∉ ds) :
    rollbackFromBackup fs ds (livePath d) = fs (livePath d) := by
  induction ds generalizing fs with
  | nil => rfl
  | cons e rest ih =>
    have hde : d ≠ e := fun h => hd (h ▸ List.mem_cons_self e rest)
    have hdr : d ∉ rest := fun h => hd (List.mem_cons_of_mem e h)
    show rollbackFromBackup (rollbackOne fs e) rest (livePath d) = fs (livePath d)
    rw [ih hdr, rollbackOne_other_live hde]

theorem rollbackOne_self (fs : FS) (d : String) :
    rollbackOne fs d (livePath d) = rollbackTarget (fs (bakPath d)) := by
  rcases hb : fs (bakPath d) with _ | b
  · simp [rollbackOne, hb, rollbackTarget, FS.remove]
  · by_cases hb0 : b = [] <;>
      simp [rollbackOne, hb, hb0, rollbackTarget, FS.remove, FS.write]

theorem rollback_live {ds : List String} {fs : FS} {d : String} (hd : d ∈ ds) :
    rollbackFromBackup fs ds (livePath d) = rollbackTarget (fs (bakPath d)) := by
  induction ds generalizing fs with
  | nil => cases hd
  | cons e rest ih =>
    show rollbackFromBackup (rollbackOne fs e) rest (livePath d) =
      rollbackTarget (fs (bakPath d))
    by_cases hdr : d ∈ rest
    · rw [ih hdr, rollbackOne_preserves (by simp [bakPath])]
    · have hde : d = e := by
        rcases List.mem_cons.mp hd with h | h
        · exact h
        · exact absurd h hdr
      subst hde
      rw [rollback_not_mem hdr, rollbackOne_self]

theorem updateApplyResult_status_self {db : DB} {d status msg hsh : String} {now : Nat} :
    ∀ r ∈ UpdateApplyResult db d status msg hsh now, r.domain = d → r.lastApplyStatus = status := by
  intro r hr hrd
  obtain ⟨r0, hr0, hfr⟩ := List.mem_map.mp hr
  by_cases h0 : r0.domain = d
  · rw [if_pos h0] at hfr
    subst hfr
    rfl
  · rw [if_neg h0] at hfr
    subst hfr
    exact absurd hrd h0

theorem updateApplyResult_keeps_fail {db : DB} {d e msg hsh : String} {now : Nat}
    (hP : ∀ r ∈ db, r.domain = d → r.lastApplyStatus = "fail") :
    ∀ r ∈ UpdateApplyResult db e "fail" msg hsh now, r.domain = d → r.lastApplyStatus = "fail" := by
  intro r hr hrd
  obtain ⟨r0, hr0, hfr⟩ := List.mem_map.mp hr
  by_cases h0 : r0.domain = e
  · rw [if_pos h0] at hfr
    subst hfr
    rfl
  · rw [if_neg h0] at hfr
    subst hfr
    exact hP r0 hr0 hrd

theorem failAll_keeps_fail {ds : List String} {db : DB} {d msg : String}
    {hs : List (String × String)} {now : Nat}
    (hP : ∀ r ∈ db, r.domain = d → r.lastApplyStatus = "fail") :
    ∀ r ∈ failAll db ds msg hs now, r.domain = d → r.lastApplyStatus = "fail" := by
  induction ds generalizing db with
  | nil => exact hP
  | cons e rest ih =>
    exact ih (updateApplyResult_keeps_fail hP)

theorem failAll_status {ds : List String} {db : DB} {d msg : String}
    {hs : List (String × String)} {now : Nat} (hd : d ∈ ds) :
    ∀ r ∈ failAll db ds msg hs now, r.domain = d → r.lastApplyStatus = "fail" := by
  induction ds generalizing db with
  | nil => cases hd
  | cons e rest ih =>
    show ∀ r ∈ failAll (UpdateApplyResult db e "fail" msg (hashFor hs e) now) rest msg hs now,
      r.domain = d → r.lastApplyStatus = "fail"
    by_cases hdr : d ∈ rest
    · exact ih hdr
    · have hde : d = e := by
        rcases List.mem_cons.mp hd with h | h
        · exact h
        · exact absurd h hdr
      subst hde
      exact failAll_keeps_fail updateApplyResult_status_self

theorem batchStep_dry_changed {env : Env} {req : ApplyRequest} {st : LoopSt} {s : SiteRec}
    (h : req.dryRun = true) : (batchStep env req st s).changed = st.changed := by
  unfold batchStep
  simp only [h]
  split
  · rfl
  · split
    · rfl
    · split
      · rfl
      · rfl

theorem batchLoop_dry_changed (env : Env) {req : ApplyRequest} (h : req.dryRun = true) :
    ∀ (sites : List SiteRec) (st : LoopSt), (batchLoop env req sites st).changed = st.changed := by
  intro sites
  induction sites with
  | nil => intro st; rfl
  | cons s rest ih =>
    intro st
    show (if 0 < req.limit ∧ req.limit ≤ st.applied then st
      else batchLoop env req rest (batchStep env req st s)).changed = st.changed
    split
    · rfl
    · rw [ih, batchStep_dry_changed h]

/-- Claim C2.  After a failed `TestConfig` or `Reload` inside a batch
apply, every domain in the changed set has its live file rewritten with
exactly the backup's bytes when `<backup>/<domain>.conf.bak` exists
non-empty, and removed otherwise; and every store row of such a domain
has status `fail`. -/
theorem rollback_completeness (env : Env) (req : ApplyRequest) (fs0 : FS) (db0 : DB)
    (hfail : (env.testBeforeReload = true ∧ env.testOK = false) ∨ env.reloadOK = false) :
    ∀ d ∈ (applyBatch env req fs0 db0).changedAcc,
      (applyBatch env req fs0 db0).fs (livePath d) =
        rollbackTarget ((applyBatch env req fs0 db0).fs (bakPath d)) ∧
      (∀ r ∈ (applyBatch env req fs0 db0).db, r.domain = d → r.lastApplyStatus = "fail") := by
  intro d hd
  simp only [applyBatch] at hd ⊢
  set st := batchLoop env req db0
    { fs := fs0, db := db0, rows := [], changed := [], changedHashes := [],
      applied := 0, updates := [] } with hst
  by_cases hearly : (req.dryRun || st.changed.isEmpty) = true
  · rw [if_pos hearly] at hd
    have hd' : d ∈ st.changed := hd
    exfalso
    rcases Bool.or_eq_true_iff.mp hearly with hdry | hempty
    · rw [hst, batchLoop_dry_changed env hdry] at hd'
      cases hd'
    · rw [List.isEmpty_iff.mp hempty] at hd'
      cases hd'
  · rw [if_neg hearly] at hd ⊢
    by_cases htest : (env.testBeforeReload && !env.testOK) = true
    · rw [if_pos htest] at hd ⊢
      have hd' : d ∈ st.changed := hd
      constructor
      · show rollbackFromBackup st.fs st.changed (livePath d) =
          rollbackTarget (rollbackFromBackup st.fs st.changed (bakPath d))
        rw [rollback_live hd', rollback_preserves (by simp [bakPath])]
      · exact failAll_status hd'
    · rw [if_neg htest] at hd ⊢
      by_cases hrel : (!env.reloadOK) = true
      · rw [if_pos hrel] at hd ⊢
        have hd' : d ∈ st.changed := hd
        constructor
        · show rollbackFromBackup st.fs st.changed (livePath d) =
            rollbackTarget (rollbackFromBackup st.fs st.changed (bakPath d))
          rw [rollback_live hd', rollback_preserves (by simp [bakPath])]
        · exact failAll_status hd'
      · exfalso
        rcases hfail with ⟨htbr, hnot⟩ | hnor
        · exact htest (by simp [htbr, hnot])
        · exact hrel (by simp [hnor])

/-- Witness for claim C2: one changed site whose live file carried `[9,9]`
before the apply; after the failed test, the live file again holds the
backup bytes `[9,9]` and the row status is `fail`. -/
theorem rollback_completeness_witness :
    outRollbackW.fs (livePath "a.com") = rollbackTarget (outRollbackW.fs (bakPath "a.com")) ∧
    (∀ r ∈ outRollbackW.db, r.domain = "a.com" → r.lastApplyStatus = "fail") :=
  rollback_completeness envFailTest reqBatch fsLiveW [sitePending "a.com"]
    (Or.inl ⟨rfl, rfl⟩) "a.com" (by decide)

/-! ## Claim C4: one UpdateApplyResult per reconciliation attempt -/

theorem countUpdates_append (u v : List (String × String)) (d : String) :
    countUpdates (u ++ v) d = countUpdates u d + countUpdates v d := by
  simp [countUpdates, List.filter_append]

theorem countActioned_append (u v : List ApplyDomainResult) (d : String) :
    countActioned (u ++ v) d = countActioned u d + countActioned v d := by
  simp [countActioned, List.filter_append]

theorem countActioned_zero {rows : List ApplyDomainResult} {d : String}
    (h : d ∉ rows.map (·.domain)) : countActioned rows d = 0 := by
  induction rows with
  | nil => rfl
  | cons r rest ih =>
    simp only [List.map_cons, List.mem_cons, not_or] at h
    have hb : (r.domain == d) = false := by
      rw [beq_eq_false_iff_ne]
      exact fun hh => h.1 hh.symm
    have hrest : countActioned rest d = 0 := ih h.2
    rw [countActioned, List.filter_cons] at *
    simp [hb, hrest]

theorem countActioned_le_one {rows : List ApplyDomainResult} {d : String}
    (h : (rows.map (·.domain)).Nodup) : countActioned rows d ≤ 1 := by
  induction rows with
  | nil => exact Nat.zero_le 1
  | cons r rest ih =>
    simp only [List.map_cons, List.nodup_cons] at h
    by_cases hb : (isActioned r && r.domain == d) = true
    · have hd : r.domain = d := by
        have := (Bool.and_eq_true _ _).mp hb
        exact beq_iff_eq.mp this.2
      have hzero : countActioned rest d = 0 :=
        countActioned_zero (by rw [← hd]; exact h.1)
      rw [countActioned, List.filter_cons]
      rw [countActioned] at hzero
      simp [hb, hzero]
    · have hb' : (isActioned r && r.domain == d) = false :=
        Bool.eq_false_iff.mpr hb
      have := ih h.2
      rw [countActioned, List.filter_cons] at *
      simp only [hb', if_false]
      simpa using this

theorem countActioned_pos {rows : List ApplyDomainResult} {row : ApplyDomainResult}
    (hr : row ∈ rows) (ha : isActioned row = true) :
    1 ≤ countActioned rows row.domain := by
  have hmem : row ∈ rows.filter (fun r => isActioned r && r.domain == row.domain) :=
    List.mem_filter.mpr ⟨hr, by simp [ha]⟩
  exact List.length_pos_of_mem hmem

theorem updInv_mono {doms doms' : List String} {st : LoopSt}
    (h : UpdInv doms st) (hsub : ∀ x ∈ doms, x ∈ doms') : UpdInv doms' st :=
  ⟨fun row hr => hsub _ (h.rows_doms row hr), h.rows_nodup, h.counts,
   h.changed_rows, h.changed_nodup, fun dd hd => hsub _ (h.changed_doms dd hd)⟩

theorem updInv_extend_passive {doms : List String} {st st' : LoopSt} {d : String}
    {row : ApplyDomainResult}
    (hInv : UpdInv doms st) (hd : d ∉ doms)
    (hrows : st'.rows = st.rows ++ [row]) (hupd : st'.updates = st.updates)
    (hch : st'.changed = st.changed)
    (hrow : row.domain = d) (hact : isActioned row = false) :
    UpdInv (doms ++ [d]) st' := by
  refine ⟨?_, ?_, ?_, ?_, ?_, ?_⟩
  · intro r hr
    rw [hrows] at hr
    rcases List.mem_append.mp hr with h | h
    · exact List.mem_append.mpr (Or.inl (hInv.rows_doms r h))
    · rw [List.mem_singleton.mp h, hrow]
      exact List.mem_append.mpr (Or.inr (List.mem_singleton_self d))
  · rw [hrows]
    simp only [List.map_append, List.map_cons, List.map_nil]
    refine List.Nodup.append hInv.rows_nodup (List.nodup_singleton _) ?_
    intro x hx hx'
    rw [List.mem_singleton.mp hx'] at hx
    obtain ⟨r0, hr0, hfr⟩ := List.mem_map.mp hx
    have : r0.domain ∈ doms := hInv.rows_doms r0 hr0
    rw [hfr, hrow] at this
    exact hd this
  · intro e
    rw [hrows, hupd, countActioned_append, hInv.counts e]
    have : countActioned [row] e = 0 := by
      simp [countActioned, List.filter_cons, hact]
    omega
  · intro e he
    rw [hch] at he
    obtain ⟨r0, hr0, hprop⟩ := hInv.changed_rows e he
    exact ⟨r0, by rw [hrows]; exact List.mem_append.mpr (Or.inl hr0), hprop⟩
  · rw [hch]; exact hInv.changed_nodup
  · intro e he
    rw [hch] at he
    exact List.mem_append.mpr (Or.inl (hInv.changed_doms e he))

theorem updInv_extend_actioned {doms : List String} {st st' : LoopSt} {d status : String}
    {row : ApplyDomainResult} {c : Bool}
    (hInv : UpdInv doms st) (hd : d ∉ doms)
    (hrows : st'.rows = st.rows ++ [row])
    (hupd : st'.updates = st.updates ++ [(d, status)])
    (hch : st'.changed = if c then st.changed ++ [d] else st.changed)
    (hrow : row.domain = d) (hact : isActioned row = true) :
    UpdInv (doms ++ [d]) st' := by
  refine ⟨?_, ?_, ?_, ?_, ?_, ?_⟩
  · intro r hr
    rw [hrows] at hr
    rcases List.mem_append.mp hr with h | h
    · exact List.mem_append.mpr (Or.inl (hInv.rows_doms r h))
    · rw [List.mem_singleton.mp h, hrow]
      exact List.mem_append.mpr (Or.inr (List.mem_singleton_self d))
  · rw [hrows]
    simp only [List.map_append, List.map_cons, List.map_nil]
    refine List.Nodup.append hInv.rows_nodup (List.nodup_singleton _) ?_
    intro x hx hx'
    rw [List.mem_singleton.mp hx'] at hx
    obtain ⟨r0, hr0, hfr⟩ := List.mem_map.mp hx
    have : r0.domain ∈ doms := hInv.rows_doms r0 hr0
    rw [hfr, hrow] at this
    exact hd this
  · intro e
    rw [hrows, hupd, countUpdates_append, countActioned_append, hInv.counts e]
    congr 1
    by_cases he : d = e
    · subst he
      simp [countUpdates, countActioned, List.filter_cons, hact, hrow]
    · have hbe : (row.domain == e) = false := by
        rw [beq_eq_false_iff_ne, hrow]
        exact he
      simp [countUpdates, countActioned, List.filter_cons, he, hbe]
  · intro e he
    rw [hch] at he
    cases c with
    | false =>
      simp only [Bool.false_eq_true, if_false] at he
      obtain ⟨r0, hr0, hprop⟩ := hInv.changed_rows e he
      exact ⟨r0, by rw [hrows]; exact List.mem_append.mpr (Or.inl hr0), hprop⟩
    | true =>
      simp only [if_true] at he
      rcases List.mem_append.mp he with h | h
      · obtain ⟨r0, hr0, hprop⟩ := hInv.changed_rows e h
        exact ⟨r0, by rw [hrows]; exact List.mem_append.mpr (Or.inl hr0), hprop⟩
      · rw [List.mem_singleton.mp h]
        exact ⟨row, by rw [hrows]; exact List.mem_append.mpr (Or.inr (List.mem_singleton_self row)),
          hrow, hact⟩
  · rw [hch]
    cases c with
    | false => simpa using hInv.changed_nodup
    | true =>
      simp only [if_true]
      refine List.Nodup.append hInv.changed_nodup (List.nodup_singleton _) ?_
      intro x hx hx'
      rw [List.mem_singleton.mp hx'] at hx
      exact hd (hInv.changed_doms d hx)
  · intro e he
    rw [hch] at he
    cases c with
    | false =>
      simp only [Bool.false_eq_true, if_false] at he
      exact List.mem_append.mpr (Or.inl (hInv.changed_doms e he))
    | true =>
      simp only [if_true] at he
      rcases List.mem_append.mp he with h | h
      · exact List.mem_append.mpr (Or.inl (hInv.changed_doms e h))
      · exact List.mem_append.mpr (Or.inr h)

theorem updInv_step (env : Env) (req : ApplyRequest) {doms : List String} {st : LoopSt}
    (s : SiteRec) (hInv : UpdInv doms st) (hd : normDomain s.domain ∉ doms) :
    UpdInv (doms ++ [normDomain s.domain]) (batchStep env req st s) := by
  unfold batchStep
  by_cases h1 : normDomain s.domain = ""
  · rw [if_pos h1]
    exact updInv_mono hInv (fun x hx => List.mem_append.mpr (Or.inl hx))
  · rw [if_neg h1]
    by_cases h2 : (!s.enabled) = true
    · rw [if_pos h2]
      by_cases h3 : req.dryRun = true
      · rw [if_pos h3]
        exact updInv_extend_passive hInv hd rfl rfl rfl rfl rfl
      · rw [if_neg h3]
        rcases hsp : stageDeleteLiveConf st.fs (normDomain s.domain) with ⟨ops, ok⟩
        exact updInv_extend_actioned hInv hd rfl rfl rfl rfl rfl
    · rw [if_neg h2]
      by_cases h4 : (!req.all && !siteNeedsApply s) = true
      · rw [if_pos h4]
        exact updInv_extend_passive hInv hd rfl rfl rfl rfl rfl
      · rw [if_neg h4]
        by_cases h5 : req.dryRun = true
        · rw [if_pos h5]
          exact updInv_extend_passive hInv hd rfl rfl rfl rfl rfl
        · rw [if_neg h5]
          rcases hr : env.render (s.renderInput (normDomain s.domain)) with e | content
          · exact updInv_extend_actioned (c := false) hInv hd rfl rfl rfl rfl rfl
          · dsimp only
            rcases hp : Publish (FS.write st.fs (stagePath (normDomain s.domain)) content)
                (normDomain s.domain) with e | pr
            · exact updInv_extend_actioned (c := false) hInv hd rfl rfl rfl rfl rfl
            · rcases pr with ⟨ops, changedNow⟩
              exact updInv_extend_actioned hInv hd rfl rfl rfl rfl rfl

theorem updInv_loop (env : Env) (req : ApplyRequest) :
    ∀ (sites : List SiteRec) (doms : List String) (st : LoopSt),
      UpdInv doms st →
      (doms ++ sites.map (fun s => normDomain s.domain)).Nodup →
      UpdInv (doms ++ sites.map (fun s => normDomain s.domain)) (batchLoop env req sites st) := by
  intro sites
  induction sites with
  | nil =>
    intro doms st h _
    simpa using h
  | cons s rest ih =>
    intro doms st h hnd
    show UpdInv _ (if 0 < req.limit ∧ req.limit ≤ st.applied then st
      else batchLoop env req rest (batchStep env req st s))
    split
    · exact updInv_mono h (fun x hx => List.mem_append.mpr (Or.inl hx))
    · have hdnotin : normDomain s.domain ∉ doms := by
        rw [List.nodup_append] at hnd
        exact fun hm => hnd.2.2 hm (by simp)
      have hstep := updInv_step env req s h hdnotin
      have hnd' : ((doms ++ [normDomain s.domain]) ++
          rest.map (fun s => normDomain s.domain)).Nodup := by
        simpa [List.append_assoc] using hnd
      have := ih (doms ++ [normDomain s.domain]) (batchStep env req st s) hstep hnd'
      simpa [List.append_assoc] using this

theorem countUpdates_map_pair (l : List String) (d msg : String) :
    countUpdates (l.map fun e => (e, msg)) d = (l.filter (fun e => e = d)).length := by
  induction l with
  | nil => rfl
  | cons e rest ih =>
    rw [List.map_cons, countUpdates, List.filter_cons, List.filter_cons]
    rw [countUpdates] at ih
    by_cases he : e = d <;> simp [he, ih]

theorem filter_eq_length_one {l : List String} {d : String} (hnd : l.Nodup) (hd : d ∈ l) :
    (l.filter (fun e => e = d)).length = 1 := by
  induction l with
  | nil => cases hd
  | cons e rest ih =>
    rw [List.nodup_cons] at hnd
    rcases List.mem_cons.mp hd with heq | hmem
    · have hrest : (rest.filter (fun x => x = d)).length = 0 := by
        rw [List.length_eq_zero, List.filter_eq_nil_iff]
        intro a ha
        simp only [decide_eq_true_eq]
        intro had
        apply hnd.1
        have hmem : d ∈ rest := had ▸ ha
        exact heq ▸ hmem
      simp [List.filter_cons, heq.symm, hrest]
    · have hne : e ≠ d := fun h => hnd.1 (h ▸ hmem)
      simp [List.filter_cons, hne, ih hnd.2 hmem]

/-- Counterexample to claim C4 as stated: when the batch `nginx -t` fails
after one site was published, that site's domain receives two
`UpdateApplyResult` calls in the same Apply call (first `ok`, then the
overriding `fail` of the rollback path) — not exactly one. -/
theorem updateApplyResult_twice_counterexample :
    countUpdates outFailW.updates "a.com" = 2 ∧
    ∃ row ∈ outFailW.rows, row.domain = "a.com" ∧ isActioned row = true := by
  decide

/-- Claim C4 (amended).  Within one batch Apply over a store with
pairwise distinct normalized domains, every actioned site's domain
receives `UpdateApplyResult` exactly once when the batch succeeds; when
the batch test or reload fails, every domain of the changed set receives
exactly two calls (the second being the overriding `fail`). -/
theorem updateApplyResult_count (env : Env) (req : ApplyRequest) (fs0 : FS) (db0 : DB)
    (hnodup : (db0.map (fun s => normDomain s.domain)).Nodup) :
    ((applyBatch env req fs0 db0).err = none →
      ∀ row ∈ (applyBatch env req fs0 db0).rows, isActioned row = true →
        countUpdates (applyBatch env req fs0 db0).updates row.domain = 1) ∧
    ((applyBatch env req fs0 db0).err ≠ none →
      ∀ d ∈ (applyBatch env req fs0 db0).changedAcc,
        countUpdates (applyBatch env req fs0 db0).updates d = 2) := by
  have hInv0 : UpdInv []
      { fs := fs0, db := db0, rows := [], changed := [], changedHashes := [],
        applied := 0, updates := [] } := by
    refine ⟨?_, ?_, ?_, ?_, ?_, ?_⟩
    · intro r h; cases h
    · simp
    · intro d; rfl
    · intro d h; cases h
    · exact List.nodup_nil
    · intro d h; cases h
  have hloop := updInv_loop env req db0 [] _ hInv0 (by simpa using hnodup)
  rw [List.nil_append] at hloop
  simp only [applyBatch]
  set st := batchLoop env req db0
    { fs := fs0, db := db0, rows := [], changed := [], changedHashes := [],
      applied := 0, updates := [] } with hst
  have hsuccess : ∀ (u : List (String × String)) (r : List ApplyDomainResult),
      u = st.updates →
      (∀ row ∈ r, row ∈ st.rows) →
      ∀ row ∈ r, isActioned row = true → countUpdates u row.domain = 1 := by
    intro u r hu hmem row hrow hact
    have hrow' : row ∈ st.rows := hmem row hrow
    have h1 := hloop.counts row.domain
    have h2 := countActioned_le_one (d := row.domain) hloop.rows_nodup
    have h3 := countActioned_pos hrow' hact
    rw [hu, h1]
    omega
  have hfailcount : ∀ d ∈ st.changed,
      countUpdates (st.updates ++ st.changed.map fun e => (e, "fail")) d = 2 := by
    intro d hd
    rw [countUpdates_append, hloop.counts d, countUpdates_map_pair,
      filter_eq_length_one hloop.changed_nodup hd]
    obtain ⟨row, hrowmem, hrd, hact⟩ := hloop.changed_rows d hd
    have h2 := countActioned_le_one (d := d) hloop.rows_nodup
    have h3 := countActioned_pos hrowmem hact
    rw [hrd] at h3
    omega
  by_cases hearly : (req.dryRun || st.changed.isEmpty) = true
  · rw [if_pos hearly]
    constructor
    · intro _ row hrow hact
      exact hsuccess _ _ rfl
        (fun r hr => (List.mem_insertionSort _).mp hr) row hrow hact
    · intro hne
      exact absurd rfl hne
  · rw [if_neg hearly]
    by_cases htest : (env.testBeforeReload && !env.testOK) = true
    · rw [if_pos htest]
      constructor
      · intro h
        exact absurd h (by simp)
      · intro _ d hd
        exact hfailcount d hd
    · rw [if_neg htest]
      by_cases hrel : (!env.reloadOK) = true
      · rw [if_pos hrel]
        constructor
        · intro h
          exact absurd h (by simp)
        · intro _ d hd
          exact hfailcount d hd
      · rw [if_neg hrel]
        constructor
        · intro _ row hrow hact
          exact hsuccess _ _ rfl
            (fun r hr => (List.mem_insertionSort _).mp hr) row hrow hact
        · intro hne
          exact absurd rfl hne

/-- Witness for claim C4 (amended): a successful one-site batch gives one
update for the site's domain; the failing batch of the counterexample
environment gives two. -/
theorem updateApplyResult_count_witness :
    countUpdates (applyBatch envW reqBatch FS.empty [sitePending "a.com"]).updates "a.com" = 1 ∧
    countUpdates outFailW.updates "a.com" = 2 :=
  ⟨(updateApplyResult_count envW reqBatch FS.empty [sitePending "a.com"] (by decide)).1
      rfl ⟨"a.com", "apply", true, "x", "ok", ""⟩ (by decide) (by decide),
   (updateApplyResult_count envFailTest reqBatch FS.empty [sitePending "a.com"] (by decide)).2
      (by decide) "a.com" (by decide)⟩

/-! ## Claim C3: idempotent apply -/

theorem FS.write_at (fs : FS) (p : FPath) (b : Bytes) : fs.write p b p = some b := by
  simp [FS.write]

theorem FS.write_other {fs : FS} {p q : FPath} (b : Bytes) (h : q ≠ p) :
    fs.write p b q = fs q := by
  simp [FS.write, h]

theorem FS.remove_at (fs : FS) (p : FPath) : fs.remove p p = none := by
  simp [FS.remove]

theorem FS.remove_other {fs : FS} {p q : FPath} (h : q ≠ p) : fs.remove p q = fs q := by
  simp [FS.remove, h]

theorem live_ne_stage (d e : String) : livePath d ≠ stagePath e := by
  simp [livePath, stagePath]

theorem live_ne_bak (d e : String) : livePath d ≠ bakPath e := by
  simp [livePath, bakPath]

theorem livePath_ne {d e : String} (h : d ≠ e) : livePath d ≠ livePath e :=
  fun hh => h (livePath_inj hh)

theorem forall₂_mem_right {R : SiteRec → SiteRec → Prop} :
    ∀ {l1 l2 : List SiteRec}, List.Forall₂ R l1 l2 → ∀ b ∈ l2, ∃ a ∈ l1, R a b := by
  intro l1 l2 h
  induction h with
  | nil => intro b hb; cases hb
  | cons hab htail ih =>
    intro b hb
    rcases List.mem_cons.mp hb with rfl | hb'
    · exact ⟨_, List.mem_cons_self _ _, hab⟩
    · obtain ⟨a, ha, hr⟩ := ih b hb'
      exact ⟨a, List.mem_cons_of_mem _ ha, hr⟩

theorem forall₂_sameCore_refl : ∀ (l : List SiteRec), List.Forall₂ sameCore l l := by
  intro l
  induction l with
  | nil => exact List.Forall₂.nil
  | cons s rest ih =>
    exact List.Forall₂.cons (by simp [sameCore]) ih

theorem sameCore_updRow {a b : SiteRec} {d status msg hsh : String} {now : Nat}
    (hab : sameCore a b) :
    sameCore a (if b.domain = d then
      { b with lastApplyStatus := status, lastApplyError := msg,
               lastRenderHash := hsh, lastAppliedAt := some now }
      else b) := by
  by_cases hb : b.domain = d
  · rw [if_pos hb]
    obtain ⟨h1, h2, h3, h4, h5, h6, h7, h8, h9, h10⟩ := hab
    exact ⟨h1, h2, h3, h4, h5, h6, h7, h8, h9, h10⟩
  · rw [if_neg hb]
    exact hab

theorem forall₂_update {db0 db : DB} {d status msg hsh : String} {now : Nat}
    (h : List.Forall₂ sameCore db0 db) :
    List.Forall₂ sameCore db0 (UpdateApplyResult db d status msg hsh now) := by
  induction h with
  | nil => exact List.Forall₂.nil
  | cons hab htail ih =>
    exact List.Forall₂.cons (sameCore_updRow hab) ih

theorem nodup_map_eq {α β : Type} {l : List α} {f : α → β} (h : (l.map f).Nodup) :
    ∀ a ∈ l, ∀ b ∈ l, f a = f b → a = b := by
  induction l with
  | nil => intro a ha; cases ha
  | cons c rest ih =>
    rw [List.map_cons, List.nodup_cons] at h
    intro a ha b hb hf
    rcases List.mem_cons.mp ha with rfl | ha' <;> rcases List.mem_cons.mp hb with rfl | hb'
    · rfl
    · exact absurd (hf ▸ List.mem_map_of_mem f hb') h.1
    · exact absurd (hf ▸ List.mem_map_of_mem f ha') h.1
    · exact ih h.2 a ha' b hb' hf

theorem rowsFixed_update {db : DB} {t : SiteRec} {d status msg hsh : String} {now : Nat}
    (hne : t.domain ≠ d)
    (h : ∀ r ∈ db, r.domain = t.domain → r = t) :
    ∀ r ∈ UpdateApplyResult db d status msg hsh now, r.domain = t.domain → r = t := by
  intro r hr hrd
  obtain ⟨r0, hr0, hfr⟩ := List.mem_map.mp hr
  by_cases h0 : r0.domain = d
  · rw [if_pos h0] at hfr
    subst hfr
    exact absurd (hrd ▸ h0 : t.domain = d) hne
  · rw [if_neg h0] at hfr
    subst hfr
    exact h r0 hr0 hrd

theorem siteDone_frame {env : Env} {req : ApplyRequest} {st st' : LoopSt} {t : SiteRec}
    (hD : SiteDone env req st t)
    (hfs : st'.fs (livePath t.domain) = st.fs (livePath t.domain))
    (hdb : (∀ r ∈ st.db, r.domain = t.domain → r = t) →
           (∀ r ∈ st'.db, r.domain = t.domain → r = t)) :
    SiteDone env req st' t := by
  rcases hD with h | ⟨he, ha, hn, hr⟩ | ⟨he, b, hb, hl⟩ | ⟨he, hl⟩
  · exact Or.inl h
  · exact Or.inr (Or.inl ⟨he, ha, hn, hdb hr⟩)
  · exact Or.inr (Or.inr (Or.inl ⟨he, b, hb, by rw [hfs]; exact hl⟩))
  · exact Or.inr (Or.inr (Or.inr ⟨he, by rw [hfs]; exact hl⟩))

theorem passOne_step {env : Env} {req : ApplyRequest} {db0 pre suf : List SiteRec}
    {s : SiteRec} {st : LoopSt}
    (hsplit : db0 = pre ++ s :: suf)
    (H2 : (db0.map (·.domain)).Nodup)
    (hnorm : normDomain s.domain = s.domain)
    (hren : s.enabled = true → s.domain ≠ "" →
      ∃ b, env.render (s.renderInput s.domain) = Except.ok b)
    (hdry : req.dryRun = false)
    (hInv : PassOneInv env req db0 pre (s :: suf) st) :
    PassOneInv env req db0 (pre ++ [s]) suf (batchStep env req st s) := by
  subst hsplit
  obtain ⟨hF2, hPre, hSuf⟩ := hInv
  have hmapnd := H2
  rw [List.map_append, List.map_cons, List.nodup_append] at hmapnd
  obtain ⟨ndpre, ndcons, hdisj⟩ := hmapnd
  rw [List.nodup_cons] at ndcons
  have hdis_pre : ∀ t ∈ pre, t.domain ≠ s.domain := by
    intro t ht heq
    exact hdisj (List.mem_map_of_mem _ ht) (heq ▸ List.mem_cons_self _ _)
  have hdis_suf : ∀ t ∈ suf, t.domain ≠ s.domain := by
    intro t ht heq
    exact ndcons.1 (heq ▸ List.mem_map_of_mem _ ht)
  have hPreExt : ∀ (st' : LoopSt),
      (∀ t ∈ pre, SiteDone env req st' t) → SiteDone env req st' s →
      (∀ t ∈ suf, ∀ r ∈ st'.db, r.domain = t.domain → r = t) →
      List.Forall₂ sameCore (pre ++ s :: suf) st'.db →
      PassOneInv env req (pre ++ s :: suf) (pre ++ [s]) suf st' := by
    intro st' hp hs hsu hf
    refine ⟨hf, ?_, hsu⟩
    intro t ht
    rcases List.mem_append.mp ht with h | h
    · exact hp t h
    · rw [List.mem_singleton.mp h]
      exact hs
  unfold batchStep
  rw [hnorm]
  by_cases h1 : s.domain = ""
  · rw [if_pos h1]
    exact hPreExt st hPre (Or.inl h1) (fun t ht => hSuf t (List.mem_cons_of_mem s ht)) hF2
  · rw [if_neg h1]
    by_cases h2 : (!s.enabled) = true
    · have he : s.enabled = false := by
        revert h2; cases s.enabled <;> simp
      rw [if_pos h2, if_neg (by simp [hdry])]
      rcases hlv : st.fs (livePath s.domain) with _ | old
      · have hsd : stageDeleteLiveConf st.fs s.domain = ([], false) := by
          simp [stageDeleteLiveConf, hlv]
        rw [hsd]
        apply hPreExt
        · intro t ht
          refine siteDone_frame (hPre t ht) rfl ?_
          exact rowsFixed_update (hdis_pre t ht)
        · exact Or.inr (Or.inr (Or.inr ⟨he, hlv⟩))
        · intro t ht
          exact rowsFixed_update (hdis_suf t ht) (hSuf t (List.mem_cons_of_mem s ht))
        · exact forall₂_update hF2
      · have hsd : stageDeleteLiveConf st.fs s.domain =
            ([.write (bakPath s.domain) old, .remove (livePath s.domain)], true) := by
          simp [stageDeleteLiveConf, hlv]
        rw [hsd]
        apply hPreExt
        · intro t ht
          refine siteDone_frame (hPre t ht) ?_ (rowsFixed_update (hdis_pre t ht))
          show ((st.fs.write (bakPath s.domain) old).remove (livePath s.domain))
              (livePath t.domain) = st.fs (livePath t.domain)
          rw [FS.remove_other (livePath_ne (hdis_pre t ht)),
            FS.write_other _ (live_ne_bak _ _)]
        · refine Or.inr (Or.inr (Or.inr ⟨he, ?_⟩))
          show ((st.fs.write (bakPath s.domain) old).remove (livePath s.domain))
              (livePath s.domain) = none
          exact FS.remove_at _ _
        · intro t ht
          exact rowsFixed_update (hdis_suf t ht) (hSuf t (List.mem_cons_of_mem s ht))
        · exact forall₂_update hF2
    · have he : s.enabled = true := by
        revert h2; cases s.enabled <;> simp
      rw [if_neg h2]
      by_cases h4 : (!req.all && !siteNeedsApply s) = true
      · rw [if_pos h4]
        have hall : req.all = false := by
          revert h4; cases req.all <;> simp
        have hneeds : siteNeedsApply s = false := by
          revert h4; cases hx : siteNeedsApply s <;> simp
        apply hPreExt
        · intro t ht
          exact hPre t ht
        · exact Or.inr (Or.inl ⟨he, hall, hneeds, hSuf s (List.mem_cons_self _ _)⟩)
        · intro t ht
          exact hSuf t (List.mem_cons_of_mem s ht)
        · exact hF2
      · rw [if_neg h4, if_neg (by simp [hdry])]
        obtain ⟨b, hb⟩ := hren he h1
        rw [hb]
        dsimp only
        have hstage : (FS.write st.fs (stagePath s.domain) b) (stagePath s.domain) = some b :=
          FS.write_at _ _ _
        have hlive1 : (FS.write st.fs (stagePath s.domain) b) (livePath s.domain) =
            st.fs (livePath s.domain) :=
          FS.write_other _ (live_ne_stage _ _)
        rcases hlv : st.fs (livePath s.domain) with _ | l
        · have hp : Publish (FS.write st.fs (stagePath s.domain) b) s.domain =
              .ok ([.write (livePath s.domain) b], true) := by
            unfold Publish
            rw [if_neg h1, hstage, hlive1, hlv]
          rw [hp]
          apply hPreExt
          · intro t ht
            refine siteDone_frame (hPre t ht) ?_ (rowsFixed_update (hdis_pre t ht))
            show (((st.fs.write (stagePath s.domain) b)).write (livePath s.domain) b)
                (livePath t.domain) = st.fs (livePath t.domain)
            rw [FS.write_other _ (livePath_ne (hdis_pre t ht)),
              FS.write_other _ (live_ne_stage _ _)]
          · refine Or.inr (Or.inr (Or.inl ⟨he, b, hb, ?_⟩))
            show (((st.fs.write (stagePath s.domain) b)).write (livePath s.domain) b)
                (livePath s.domain) = some b
            exact FS.write_at _ _ _
          · intro t ht
            exact rowsFixed_update (hdis_suf t ht) (hSuf t (List.mem_cons_of_mem s ht))
          · exact forall₂_update hF2
        · by_cases hlb : l = b
          · have hp : Publish (FS.write st.fs (stagePath s.domain) b) s.domain =
                .ok ([], false) := by
              unfold Publish
              rw [if_neg h1, hstage, hlive1, hlv]
              dsimp only
              rw [if_pos hlb]
            rw [hp]
            apply hPreExt
            · intro t ht
              refine siteDone_frame (hPre t ht) ?_ (rowsFixed_update (hdis_pre t ht))
              show (st.fs.write (stagePath s.domain) b) (livePath t.domain) =
                st.fs (livePath t.domain)
              exact FS.write_other _ (live_ne_stage _ _)
            · refine Or.inr (Or.inr (Or.inl ⟨he, b, hb, ?_⟩))
              show (st.fs.write (stagePath s.domain) b) (livePath s.domain) = some b
              rw [hlive1, hlv, hlb]
            · intro t ht
              exact rowsFixed_update (hdis_suf t ht) (hSuf t (List.mem_cons_of_mem s ht))
            · exact forall₂_update hF2
          · have hp : Publish (FS.write st.fs (stagePath s.domain) b) s.domain =
                .ok ([.write (bakPath s.domain) l, .write (livePath s.domain) b], true) := by
              unfold Publish
              rw [if_neg h1, hstage, hlive1, hlv]
              dsimp only
              rw [if_neg hlb]
            rw [hp]
            apply hPreExt
            · intro t ht
              refine siteDone_frame (hPre t ht) ?_ (rowsFixed_update (hdis_pre t ht))
              show ((((st.fs.write (stagePath s.domain) b)).write (bakPath s.domain) l).write
                  (livePath s.domain) b) (livePath t.domain) = st.fs (livePath t.domain)
              rw [FS.write_other _ (livePath_ne (hdis_pre t ht)),
                FS.write_other _ (live_ne_bak _ _), FS.write_other _ (live_ne_stage _ _)]
            · refine Or.inr (Or.inr (Or.inl ⟨he, b, hb, ?_⟩))
              show ((((st.fs.write (stagePath s.domain) b)).write (bakPath s.domain) l).write
                  (livePath s.domain) b) (livePath s.domain) = some b
              exact FS.write_at _ _ _
            · intro t ht
              exact rowsFixed_update (hdis_suf t ht) (hSuf t (List.mem_cons_of_mem s ht))
            · exact forall₂_update hF2

theorem passOne_loop {env : Env} {req : ApplyRequest} {db0 : DB}
    (H2 : (db0.map (·.domain)).Nodup)
    (H1 : ∀ t ∈ db0, normDomain t.domain = t.domain)
    (hrenAll : ∀ t ∈ db0, t.enabled = true → t.domain ≠ "" →
      ∃ b, env.render (t.renderInput t.domain) = Except.ok b)
    (hdry : req.dryRun = false) (hlimit : req.limit = 0) :
    ∀ (suf pre : List SiteRec) (st : LoopSt), db0 = pre ++ suf →
      PassOneInv env req db0 pre suf st →
      PassOneInv env req db0 db0 [] (batchLoop env req suf st) := by
  intro suf
  induction suf with
  | nil =>
    intro pre st hsp hInv
    rw [List.append_nil] at hsp
    show PassOneInv env req db0 db0 [] st
    rw [hsp] at hInv ⊢
    exact hInv
  | cons s rest ih =>
    intro pre st hsp hInv
    show PassOneInv env req db0 db0 []
      (if 0 < req.limit ∧ req.limit ≤ st.applied then st
        else batchLoop env req rest (batchStep env req st s))
    rw [hlimit, if_neg (by simp)]
    have hs_mem : s ∈ db0 := by
      rw [hsp]
      exact List.mem_append.mpr (Or.inr (List.mem_cons_self _ _))
    have hstep := passOne_step hsp H2 (H1 s hs_mem) (hrenAll s hs_mem) hdry hInv
    refine ih (pre ++ [s]) (batchStep env req st s) ?_ ?_
    · rw [hsp]
      simp [List.append_assoc]
    · exact hstep

theorem passOne_safe {env : Env} {req : ApplyRequest} {db0 : DB} {f : FS}
    (H1 : ∀ t ∈ db0, normDomain t.domain = t.domain)
    (H2 : (db0.map (·.domain)).Nodup)
    (hrenAll : ∀ t ∈ db0, t.enabled = true → t.domain ≠ "" →
      ∃ b, env.render (t.renderInput t.domain) = Except.ok b)
    (hdry : req.dryRun = false) (hlimit : req.limit = 0) :
    ∀ r ∈ (batchLoop env req db0
      { fs := f, db := db0, rows := [], changed := [], changedHashes := [],
        applied := 0, updates := [] }).db,
      PassTwoSafe env req (batchLoop env req db0
        { fs := f, db := db0, rows := [], changed := [], changedHashes := [],
          applied := 0, updates := [] }).fs r := by
  have hInv0 : PassOneInv env req db0 [] db0
      { fs := f, db := db0, rows := [], changed := [], changedHashes := [],
        applied := 0, updates := [] } := by
    refine ⟨forall₂_sameCore_refl db0, ?_, ?_⟩
    · intro t ht
      cases ht
    · intro t ht r hr hdom
      exact nodup_map_eq H2 r hr t ht hdom
  have hend := passOne_loop H2 H1 hrenAll hdry hlimit db0 [] _ (List.nil_append db0).symm hInv0
  obtain ⟨hF2, hDone, _⟩ := hend
  intro r hr
  obtain ⟨t, ht, hcore⟩ := forall₂_mem_right hF2 r hr
  obtain ⟨hid, huid, hdom, hmode, hweb, hphp, h3, hen, hcr, hup⟩ := hcore
  have hnr : normDomain r.domain = t.domain := by
    rw [hdom]
    exact H1 t ht
  rcases hDone t ht with h | ⟨he, hall, hneeds, hrows⟩ | ⟨he, b, hb, hl⟩ | ⟨he, hl⟩
  · exact Or.inl (by rw [hnr, h])
  · have hrt : r = t := hrows r hr hdom
    subst hrt
    exact Or.inr (Or.inl ⟨he, hall, hneeds⟩)
  · refine Or.inr (Or.inr (Or.inl ⟨by rw [hen]; exact he, b, ?_, ?_⟩))
    · rw [hnr]
      have hri : r.renderInput t.domain = t.renderInput t.domain := by
        simp [SiteRec.renderInput, hmode, hweb, hphp, h3]
      rw [hri]
      exact hb
    · rw [hnr]
      exact hl
  · exact Or.inr (Or.inr (Or.inr ⟨by rw [hen]; exact he, by rw [hnr]; exact hl⟩))

theorem passTwo_step {env : Env} {req : ApplyRequest} {fs1 : FS} {st : LoopSt} {s : SiteRec}
    (hdry : req.dryRun = false)
    (hsafe : PassTwoSafe env req fs1 s)
    (hInv : PassTwoInv fs1 st) :
    PassTwoInv fs1 (batchStep env req st s) := by
  obtain ⟨hfs, hch, hrows⟩ := hInv
  unfold batchStep
  by_cases h1 : normDomain s.domain = ""
  · rw [if_pos h1]
    exact ⟨hfs, hch, hrows⟩
  · rw [if_neg h1]
    by_cases h2 : (!s.enabled) = true
    · have he : s.enabled = false := by
        revert h2; cases s.enabled <;> simp
      rw [if_pos h2, if_neg (by simp [hdry])]
      have hlv : st.fs (livePath (normDomain s.domain)) = none := by
        rw [hfs _ (by simp [livePath])]
        rcases hsafe with h | ⟨he2, _⟩ | ⟨he2, _⟩ | ⟨_, hl⟩
        · exact absurd h h1
        · rw [he] at he2; cases he2
        · rw [he] at he2; cases he2
        · exact hl
      have hsd : stageDeleteLiveConf st.fs (normDomain s.domain) = ([], false) := by
        simp [stageDeleteLiveConf, hlv]
      rw [hsd]
      refine ⟨hfs, hch, ?_⟩
      intro row hrow
      rcases List.mem_append.mp hrow with h | h
      · exact hrows row h
      · rw [List.mem_singleton.mp h]
        exact ⟨rfl, Or.inl rfl⟩
    · have he : s.enabled = true := by
        revert h2; cases s.enabled <;> simp
      rw [if_neg h2]
      by_cases h4 : (!req.all && !siteNeedsApply s) = true
      · rw [if_pos h4]
        refine ⟨hfs, hch, ?_⟩
        intro row hrow
        rcases List.mem_append.mp hrow with h | h
        · exact hrows row h
        · rw [List.mem_singleton.mp h]
          exact ⟨rfl, Or.inr rfl⟩
      · rw [if_neg h4, if_neg (by simp [hdry])]
        have hcase : ∃ b, env.render (s.renderInput (normDomain s.domain)) = Except.ok b ∧
            fs1 (livePath (normDomain s.domain)) = some b := by
          rcases hsafe with h | ⟨_, hall, hneeds⟩ | ⟨_, hb⟩ | ⟨he2, _⟩
          · exact absurd h h1
          · exact absurd (show (!req.all && !siteNeedsApply s) = true by
              rw [hall, hneeds]; rfl) h4
          · exact hb
          · rw [he] at he2; cases he2
        obtain ⟨b, hb, hlive1⟩ := hcase
        rw [hb]
        dsimp only
        have hstage := FS.write_at st.fs (stagePath (normDomain s.domain)) b
        have hlivefs : (FS.write st.fs (stagePath (normDomain s.domain)) b)
            (livePath (normDomain s.domain)) = some b := by
          rw [FS.write_other _ (live_ne_stage _ _), hfs _ (by simp [livePath])]
          exact hlive1
        have hp : Publish (FS.write st.fs (stagePath (normDomain s.domain)) b)
            (normDomain s.domain) = .ok ([], false) := by
          unfold Publish
          rw [if_neg h1, hstage, hlivefs]
          dsimp only
          rw [if_pos rfl]
        rw [hp]
        refine ⟨?_, hch, ?_⟩
        · intro p hp'
          show (st.fs.write (stagePath (normDomain s.domain)) b) p = fs1 p
          rw [FS.write_other _ (fun hq => hp' (by rw [hq]; rfl)), hfs p hp']
        · intro row hrow
          rcases List.mem_append.mp hrow with h | h
          · exact hrows row h
          · rw [List.mem_singleton.mp h]
            exact ⟨rfl, Or.inl rfl⟩

theorem passTwo_loop {env : Env} {req : ApplyRequest} {fs1 : FS} (hdry : req.dryRun = false) :
    ∀ (sites : List SiteRec) (st : LoopSt),
      (∀ s ∈ sites, PassTwoSafe env req fs1 s) →
      PassTwoInv fs1 st → PassTwoInv fs1 (batchLoop env req sites st) := by
  intro sites
  induction sites with
  | nil =>
    intro st _ h
    exact h
  | cons s rest ih =>
    intro st hsafe hInv
    show PassTwoInv fs1 (if 0 < req.limit ∧ req.limit ≤ st.applied then st
      else batchLoop env req rest (batchStep env req st s))
    split
    · exact hInv
    · exact ih _ (fun t ht => hsafe t (List.mem_cons_of_mem s ht))
        (passTwo_step hdry (hsafe s (List.mem_cons_self _ _)) hInv)

theorem applyBatch_success_state (env : Env) (req : ApplyRequest) (fs0 : FS) (db0 : DB)
    (ht : env.testOK = true) (hr : env.reloadOK = true) :
    (applyBatch env req fs0 db0).fs =
      (batchLoop env req db0
        { fs := fs0, db := db0, rows := [], changed := [], changedHashes := [],
          applied := 0, updates := [] }).fs ∧
    (applyBatch env req fs0 db0).db =
      (batchLoop env req db0
        { fs := fs0, db := db0, rows := [], changed := [], changedHashes := [],
          applied := 0, updates := [] }).db := by
  simp only [applyBatch]
  set st := batchLoop env req db0
    { fs := fs0, db := db0, rows := [], changed := [], changedHashes := [],
      applied := 0, updates := [] } with hst
  by_cases hearly : (req.dryRun || st.changed.isEmpty) = true
  · rw [if_pos hearly]
    exact ⟨rfl, rfl⟩
  · rw [if_neg hearly, if_neg (by simp [ht]), if_neg (by simp [hr])]
    exact ⟨rfl, rfl⟩

/-- Counterexample to claim C3 as stated: two pending sites with
`limit = 1` and `all = false`.  The first apply succeeds (no error,
reloaded).  The immediately following identical apply is not a no-op: the
first site's row is `skipped` (not `ok`), the second site's row has
`changed = true`, and nginx is reloaded again. -/
theorem apply_idempotent_counterexample :
    outLimitFirst.err = none ∧ outLimitFirst.reloaded = true ∧
    outLimitSecond.reloaded = true ∧
    (∃ row ∈ outLimitSecond.rows, row.changed = true) ∧
    (∃ row ∈ outLimitSecond.rows, row.status = "skipped") := by
  decide

/-- Claim C3 (amended).  For a full batch apply (`limit = 0`, not a dry
run) over a store with normalized, pairwise-distinct domains whose
enabled sites all render, if nginx test and reload succeed then running
the same apply again immediately yields `changed = false` for every row,
every row `ok` or `skipped`, performs no nginx reload (and no config
test), returns no error, and leaves every backup file untouched. -/
theorem apply_idempotent (env : Env) (req : ApplyRequest) (fs0 : FS) (db0 : DB)
    (hdry : req.dryRun = false) (hlimit : req.limit = 0)
    (htest : env.testOK = true) (hrel : env.reloadOK = true)
    (H1 : ∀ s ∈ db0, normDomain s.domain = s.domain)
    (H2 : (db0.map (·.domain)).Nodup)
    (hren : ∀ s ∈ db0, s.enabled = true → s.domain ≠ "" →
      ∃ b, env.render (s.renderInput s.domain) = Except.ok b) :
    let out1 := applyBatch env req fs0 db0
    let out2 := applyBatch env req out1.fs out1.db
    (∀ row ∈ out2.rows, row.changed = false ∧ (row.status = "ok" ∨ row.status = "skipped")) ∧
    out2.nReloads = 0 ∧ out2.reloaded = false ∧ out2.testRan = false ∧ out2.err = none ∧
    (∀ p : FPath, p.dir = FDir.backup → out2.fs p = out1.fs p) := by
  intro out1 out2
  have hst1 := applyBatch_success_state env req fs0 db0 htest hrel
  set st1 := batchLoop env req db0
    { fs := fs0, db := db0, rows := [], changed := [], changedHashes := [],
      applied := 0, updates := [] } with hst1def
  have hfs1 : out1.fs = st1.fs := hst1.1
  have hdb1 : out1.db = st1.db := hst1.2
  have hsafe := passOne_safe (f := fs0) H1 H2 hren hdry hlimit
  have hout2 : out2 = applyBatch env req st1.fs st1.db := by
    show applyBatch env req out1.fs out1.db = _
    rw [hfs1, hdb1]
  set st2 := batchLoop env req st1.db
    { fs := st1.fs, db := st1.db, rows := [], changed := [], changedHashes := [],
      applied := 0, updates := [] } with hst2def
  have hInv2 : PassTwoInv st1.fs
      { fs := st1.fs, db := st1.db, rows := [], changed := [], changedHashes := [],
        applied := 0, updates := [] } := by
    refine ⟨fun p hp => rfl, rfl, ?_⟩
    intro row h
    cases h
  have hloop2 : PassTwoInv st1.fs st2 := passTwo_loop hdry st1.db _ hsafe hInv2
  have hempty : (req.dryRun || st2.changed.isEmpty) = true := by
    rw [hdry, hloop2.2.1]
    rfl
  have hout2eq : out2 =
      { rows := st2.rows.insertionSort rowLe,
        resChanged := [], reloaded := false, fs := st2.fs, db := st2.db,
        changedAcc := st2.changed, updates := st2.updates, nReloads := 0,
        testRan := false, err := none } := by
    rw [hout2]
    simp only [applyBatch]
    rw [← hst2def, if_pos hempty]
  refine ⟨?_, ?_, ?_, ?_, ?_, ?_⟩
  · intro row hrow
    rw [hout2eq] at hrow
    exact hloop2.2.2 row ((List.mem_insertionSort _).mp hrow)
  · rw [hout2eq]
  · rw [hout2eq]
  · rw [hout2eq]
  · rw [hout2eq]
  · intro p hp
    rw [hout2eq, hfs1]
    exact hloop2.1 p (by rw [hp]; decide)

/-- Witness for claim C3 (amended): one pending site, first apply
publishes and reloads; the second apply reports one unchanged `ok` row,
no reload and no error. -/
theorem apply_idempotent_witness :
    (∀ row ∈ (applyBatch envW reqBatch
        (applyBatch envW reqBatch FS.empty [sitePending "a.com"]).fs
        (applyBatch envW reqBatch FS.empty [sitePending "a.com"]).db).rows,
      row.changed = false ∧ (row.status = "ok" ∨ row.status = "skipped")) ∧
    (applyBatch envW reqBatch
        (applyBatch envW reqBatch FS.empty [sitePending "a.com"]).fs
        (applyBatch envW reqBatch FS.empty [sitePending "a.com"]).db).nReloads = 0 :=
  let h := apply_idempotent envW reqBatch FS.empty [sitePending "a.com"]
    rfl rfl rfl rfl (by decide) (by decide)
    (by
      intro s hs he hd
      exact ⟨[5], by rw [List.mem_singleton.mp hs]; rfl⟩)
  ⟨h.1, h.2.1⟩

end MyNginx
